import Mathlib

/-!
Verification development for the segregated-free-list memory allocator in
src/mm.c (a 64-bit malloc with packed headers, fifteen segregated free
lists, bounded best-fit placement, splitting and coalescing).

Modelling choices (shallow embedding of src/mm.c):

* Machine words are `Nat` with explicit reduction modulo `2^64`
  (`word_modulus`) at the operations where `size_t` arithmetic can wrap
  (`round_up`, the `size + wsize` adjustment in `malloc`, `elements * size`
  in `calloc`).

* A block header is modelled by the structure `Blk` holding the decoded
  fields `(size, alloc, prevAlloc, prevMini)` that `pack` encodes into one
  word, plus `ftr`, the raw word occupying the last eight bytes of the
  block's extent (the footer slot; `write_block` stores `pack …` there
  exactly when it writes a footer in the source, i.e. for free blocks
  larger than `min_block_size`).  The raw codec (`pack`, `extract_size`,
  `extract_alloc`) is also embedded and used where the source manipulates
  raw words (the prologue word, footers).

* The heap is the physical sequence of non-sentinel blocks, as a
  `List Blk`, together with the epilogue header `epi` (size 0, allocated)
  and the raw prologue word `proWord`.  The address of block `i` is
  `8 + (sum of the sizes of the blocks before it)` (the prologue word
  occupies bytes 0..7, `heap_start` is byte 8); addresses are stable under
  coalescing, splitting and extension, so the segregated free lists are
  modelled as fifteen lists of block start addresses, in list order from
  each head (`segregated_free_list[seg]`).  The intrusive `prev`/`next`
  pointers that the source stores in the payload of free blocks are
  represented by the order of those lists: LIFO insertion is consing,
  unlinking a member is erasing its first occurrence.

* Payload bytes are a separate byte store `mem : Nat → Nat`, written only
  by the arena primitives `mem_memset`/`mem_memcpy` (external collaborators
  per the specification; modelled from the spec).  `mem_sbrk` is modelled
  by a remaining-capacity counter `avail`; the ghost field `sbrkCalls`
  records the sizes requested from the arena and is not observable
  allocator state.

* Operations whose C execution would dereference garbage (e.g.
  `find_prev` on the first block, which the coalescer only reaches on a
  corrupted heap) return `none`: fallible code returns `Option`.
-/

set_option linter.unusedVariables false

namespace MM

/-- 2^64, the modulus of `size_t`/`word_t` arithmetic. -/
def word_modulus : Nat := 18446744073709551616

/-- Word and header size in bytes (`wsize`). -/
def wsize : Nat := 8

/-- Double word size in bytes (`dsize`). -/
def dsize : Nat := 16

/-- Minimum block size in bytes (`min_block_size = dsize`). -/
def min_block_size : Nat := dsize

/-- The size of the initial heap extension in bytes (`chunksize = 1 << 11`). -/
def chunksize : Nat := 2048

/-- Number of segregated lists (`SEG_LIST_NUM`). -/
def SEG_LIST_NUM : Nat := 15

/-- Bound on entries scanned in one list before moving on (`SEARCH_LIMIT`). -/
def SEARCH_LIMIT : Nat := 10

/-- Surplus below which a fit is accepted immediately (`CLOSE_ENOUGH`). -/
def CLOSE_ENOUGH : Nat := 46

/-- Size-class thresholds `s_list_mini`, `s_list_1` .. `s_list_13`. -/
def s_list_mini : Nat := 32
def s_list_1 : Nat := 64
def s_list_2 : Nat := 128
def s_list_3 : Nat := 256
def s_list_4 : Nat := 512
def s_list_5 : Nat := 1024
def s_list_6 : Nat := 2048
def s_list_7 : Nat := 4096
def s_list_8 : Nat := 8192
def s_list_9 : Nat := 16384
def s_list_10 : Nat := 32768
def s_list_11 : Nat := 65536
def s_list_12 : Nat := 131072
def s_list_13 : Nat := 262144

/-- pack: encode `(size, alloc, prev_alloc, prev_mini)` into one word.
The source sets the three low flag bits of `size` via the masks
`alloc_mask = 0x1`, `prev_alloc_mask = 0x2`, `prev_mini_mask = 0x4`. -/
def pack (size : Nat) (alloc prev_alloc prev_mini : Bool) : Nat :=
  let word := size % word_modulus
  let word := if alloc then word ||| 1 else word
  let word := if prev_alloc then word ||| 2 else word
  let word := if prev_mini then word ||| 4 else word
  word

/-- extract_size: clear the low four bits (`word & size_mask`,
`size_mask = ~0xF` over 64 bits). -/
def extract_size (word : Nat) : Nat := word &&& (word_modulus - 16)

/-- extract_alloc: lowest bit of the word (`word & alloc_mask`). -/
def extract_alloc (word : Nat) : Bool := word &&& 1 ≠ 0

/-- extract_prev_alloc: second lowest bit (`word & prev_alloc_mask`). -/
def extract_prev_alloc (word : Nat) : Bool := word &&& 2 ≠ 0

/-- extract_prev_mini: third lowest bit (`word & prev_mini_mask`). -/
def extract_prev_mini (word : Nat) : Bool := word &&& 4 ≠ 0

/-- A block header, decoded: the fields `pack` stores in the header word,
plus `ftr`, the raw word in the footer slot (last 8 bytes of the block). -/
structure Blk where
  size : Nat
  alloc : Bool
  prevAlloc : Bool
  prevMini : Bool
  ftr : Nat
deriving Repr, DecidableEq

/-- get_list_index: binary decision tree over the size-class thresholds
(source lines 565-623). -/
def get_list_index (size : Nat) : Nat :=
  if size ≤ s_list_7 then
    if size ≤ s_list_3 then
      if size ≤ s_list_1 then
        if size < s_list_mini then 0 else 1
      else
        if size ≤ s_list_2 then 2 else 3
    else
      if size ≤ s_list_5 then
        if size ≤ s_list_4 then 4 else 5
      else
        if size ≤ s_list_6 then 6 else 7
  else
    if size ≤ s_list_11 then
      if size ≤ s_list_9 then
        if size ≤ s_list_8 then 8 else 9
      else
        if size ≤ s_list_10 then 10 else 11
    else
      if size ≤ s_list_13 then
        if size ≤ s_list_12 then 12 else 13
      else 14

/-- round_up: `n * ((size + (n - 1)) / n)` in `size_t` arithmetic; the
sum and the product reduce modulo 2^64. -/
def round_up (size n : Nat) : Nat :=
  (n * (((size + (n - 1)) % word_modulus) / n)) % word_modulus

/-- max of two sizes. -/
def maxsz (x y : Nat) : Nat := if x > y then x else y

/-- The adjusted block size `asize` computed by malloc (lines 1459-1463):
`size <= wsize ? min_block_size : round_up(size + wsize, dsize)`; the
argument `size + wsize` is `size_t` addition and may wrap. -/
def adjusted_size (size : Nat) : Nat :=
  if size ≤ wsize then min_block_size
  else round_up ((size + wsize) % word_modulus) dsize

/-- The value malloc stores into the physical successor's `prev_mini`
after marking the fitted block allocated (line 1497):
`true ? block_size == min_block_size : false`.  In C the conditional
binds tighter than assignment, so this is the first branch. -/
def malloc_next_prev_mini (block_size : Nat) : Bool :=
  if true then block_size == min_block_size else false

/-- The value free stores into the physical successor's `prev_mini`
after marking the block free (line 1538). -/
def free_next_prev_mini (size : Nat) : Bool :=
  if true then size == min_block_size else false

/-- The value split_block stores into the remainder's own header
`prev_mini` field (line 943); the remainder's physical predecessor is the
allocated part, of size `asize`. -/
def split_remainder_prev_mini (asize : Nat) : Bool :=
  if true then asize == min_block_size else false

/-- The value split_block stores into the `prev_mini` of the block after
the remainder (line 949); that block's physical predecessor is the
remainder, of size `block_size - asize`. -/
def split_next_prev_mini (block_size asize : Nat) : Bool :=
  if true then block_size - asize == min_block_size else false

/-- The value extend_heap stores into the new epilogue's `prev_mini`
(line 910); the epilogue's physical predecessor is the freshly written
block, of (rounded) size `size`. -/
def extend_epilogue_prev_mini (size : Nat) : Bool :=
  if true then size == min_block_size else false

/-- The allocator state: prologue word, physical block sequence, epilogue
header, the fifteen segregated free lists (as lists of block start
addresses), the payload byte store, the remaining arena capacity, and the
ghost trace of `mem_sbrk` requests (most recent first). -/
structure AllocState where
  proWord : Nat
  heap : List Blk
  epi : Blk
  freeLists : List (List Nat)
  mem : Nat → Nat
  avail : Nat
  sbrkCalls : List Nat

/-- The observable allocator state: everything except the ghost trace. -/
def AllocState.obs (s : AllocState) :
    Nat × List Blk × Blk × List (List Nat) × (Nat → Nat) × Nat :=
  (s.proWord, s.heap, s.epi, s.freeLists, s.mem, s.avail)

/-- Total read of the i-th element of a block list, with default. -/
def nth (l : List Blk) (i : Nat) (d : Blk) : Blk :=
  match l, i with
  | [], _ => d
  | b :: _, 0 => b
  | _ :: rest, i + 1 => nth rest i d

/-- Overwrite the i-th element of a block list (no-op out of range). -/
def setNth (l : List Blk) (i : Nat) (b : Blk) : List Blk :=
  match l, i with
  | [], _ => []
  | _ :: rest, 0 => b :: rest
  | x :: rest, i + 1 => x :: setNth rest i b

/-- Replace the run of `cnt` blocks starting at position `p` by the single
block `b` (the net effect on the block sequence of writing a header whose
size covers that run, as coalescing does). -/
def mergeRun (l : List Blk) (p cnt : Nat) (b : Blk) : List Blk :=
  match l, p with
  | [], _ => []
  | _ :: _, 0 => b :: l.drop cnt
  | x :: rest, p + 1 => x :: mergeRun rest p cnt b

/-- Replace the block at position `i` by the two blocks `b` and `r` (the
net effect on the block sequence of the two header writes in
`split_block`). -/
def splice2 (l : List Blk) (i : Nat) (b r : Blk) : List Blk :=
  match l, i with
  | [], _ => []
  | _ :: rest, 0 => b :: r :: rest
  | x :: rest, i + 1 => x :: splice2 rest i b r

/-- Sum of the block sizes of a list. -/
def sumSizes (l : List Blk) : Nat := (l.map Blk.size).sum

/-- Start address of block `i`: the prologue word occupies bytes 0..7,
`heap_start` is byte 8, and each block starts where the previous one
ends. -/
def addrOf (l : List Blk) (i : Nat) : Nat := 8 + sumSizes (l.take i)

/-- Index of the block starting at address `a`, scanning from base
address `cur`. -/
def idxFrom (cur : Nat) (l : List Blk) (a : Nat) : Option Nat :=
  match l with
  | [] => none
  | b :: rest =>
    if a = cur then some 0
    else (idxFrom (cur + b.size) rest a).map (· + 1)

/-- Index of the block starting at address `a` (if any). -/
def idxAt (l : List Blk) (a : Nat) : Option Nat := idxFrom 8 l a

/-- get_size of the block starting at address `a` (0 if no block starts
there; sizes are read live during the free-list scan). -/
def sizeAt (l : List Blk) (a : Nat) : Nat :=
  match idxAt l a with
  | some i => (nth l i ⟨0, true, false, false, 0⟩).size
  | none => 0

/-- Read the header of block `i`; reading one past the last block (or an
empty heap) yields the epilogue, as physical traversal does. -/
def AllocState.blk (s : AllocState) (i : Nat) : Blk := nth s.heap i s.epi

/-- Write the header of the physical successor of block `i`: the block at
`i + 1`, or the epilogue when block `i` is the last block. -/
def setSucc (s : AllocState) (i : Nat) (b : Blk) : AllocState :=
  if i + 1 < s.heap.length then { s with heap := setNth s.heap (i + 1) b }
  else { s with epi := b }

/-- write_block (lines 467-479): produce the block written by
`write_block(block, size, alloc, prev_alloc, prev_mini)`.  The footer word
is written exactly for free blocks larger than `min_block_size`; otherwise
the footer slot keeps whatever bytes were there (`oldFtr`, the raw word at
the end of the written extent). -/
def write_block (size : Nat) (alloc prev_alloc prev_mini : Bool) (oldFtr : Nat) : Blk :=
  if !alloc && decide (size > min_block_size) then
    ⟨size, alloc, prev_alloc, prev_mini, pack size alloc prev_alloc prev_mini⟩
  else
    ⟨size, alloc, prev_alloc, prev_mini, oldFtr⟩

/-- update_block (lines 757-760): overwrite only the header word. -/
def update_block (b : Blk) (size : Nat) (alloc prev_alloc prev_mini : Bool) : Blk :=
  { b with size := size, alloc := alloc, prevAlloc := prev_alloc, prevMini := prev_mini }

/-- insert_to_free_list (lines 630-652): LIFO push of the block's address
at the head of bucket `get_list_index(size)`; the doubly-linked `prev` and
`next` pointers are represented by the list order. -/
def insert_to_free_list (s : AllocState) (i : Nat) : AllocState :=
  let a := addrOf s.heap i
  let seg := get_list_index (s.blk i).size
  { s with freeLists := s.freeLists.set seg (a :: s.freeLists.getD seg []) }

/-- delete_from_free_list (lines 659-685): unlink the block from bucket
`get_list_index(size)` via its stored prev/next pointers; in the list
representation this erases the first occurrence of its address. -/
def delete_from_free_list (s : AllocState) (i : Nat) : AllocState :=
  let a := addrOf s.heap i
  let seg := get_list_index (s.blk i).size
  { s with freeLists := s.freeLists.set seg ((s.freeLists.getD seg []).erase a) }

/-- insert_to_mini_free_list (lines 692-710): LIFO push at the head of
bucket 0 (singly linked via `next_mini`). -/
def insert_to_mini_free_list (s : AllocState) (i : Nat) : AllocState :=
  let a := addrOf s.heap i
  { s with freeLists := s.freeLists.set 0 (a :: s.freeLists.getD 0 []) }

/-- delete_from_mini_free_list (lines 717-747): walk bucket 0 from the
head and unlink the block; erases the first occurrence of its address. -/
def delete_from_mini_free_list (s : AllocState) (i : Nat) : AllocState :=
  let a := addrOf s.heap i
  { s with freeLists := s.freeLists.set 0 ((s.freeLists.getD 0 []).erase a) }

/-- insert_normal_or_mini (lines 767-775): dispatch on `size == 16`. -/
def insert_normal_or_mini (s : AllocState) (i : Nat) : AllocState :=
  if (s.blk i).size = min_block_size then insert_to_mini_free_list s i
  else insert_to_free_list s i

/-- delete_normal_or_mini (lines 782-790): dispatch on `size == 16`. -/
def delete_normal_or_mini (s : AllocState) (i : Nat) : AllocState :=
  if (s.blk i).size = min_block_size then delete_from_mini_free_list s i
  else delete_from_free_list s i

/-- find_prev (lines 529-547): the source locates the physical
predecessor through the `prev_mini` flag (header minus 16 bytes) or
through the footer word immediately before the header.  In this
block-sequence model both paths land on the physically preceding block,
index `i - 1` — the `prev_mini` path when the predecessor's size is 16,
the footer path when the predecessor is a free normal block with a valid
footer (invariant I4); the callers in `coalesce_block` only take this
path when the `prev_alloc` flag is false.  For the first block the footer
slot is the prologue (size 0): `find_prev` returns NULL there and the
caller's subsequent dereference is undefined, so the model yields
`none`. -/
def find_prev (i : Nat) : Option Nat :=
  if i = 0 then none else some (i - 1)

/-- The final successor update of coalesce_block (lines 864-868): set the
merged block's physical successor's `prev_alloc := false` and
`prev_mini := false` (after a merge the block size is at least 32). -/
def coalesce_finish (s : AllocState) (m : Nat) : AllocState :=
  let bn := s.blk (m + 1)
  setSucc s m (update_block bn bn.size bn.alloc false false)

/-- coalesce_block (lines 802-871).  Classifies by
`(prev_alloc flag of block, alloc of physical successor)`; cases 2-4
merge and then rewrite the new successor's flags; case 1 inserts and
returns early.  Returns the merged block's index with the new state, or
`none` where the C code dereferences an invalid predecessor/successor. -/
def coalesce_block (s : AllocState) (i : Nat) : Option (Nat × AllocState) :=
  let block := s.blk i
  let block_next := s.blk (i + 1)
  let prev_alloc := block.prevAlloc
  let next_alloc := block_next.alloc
  if prev_alloc && next_alloc then
    -- case 1: insert as-is, return early (no successor rewrite)
    some (i, insert_normal_or_mini s i)
  else if !prev_alloc && next_alloc then
    -- case 2: merge with the previous block
    match find_prev i with
    | none => none
    | some p =>
      let block_prev := s.blk p
      let block_size := block.size
      let block_prev_size := block_prev.size
      let prev_prev_alloc := block_prev.prevAlloc
      let prev_prev_mini := block_prev.prevMini
      let s₁ := delete_normal_or_mini s p
      let merged := write_block (block_prev_size + block_size) false
        prev_prev_alloc prev_prev_mini block.ftr
      let s₂ := { s₁ with heap := mergeRun s₁.heap p 2 merged }
      let s₃ := insert_normal_or_mini s₂ p
      some (p, coalesce_finish s₃ p)
  else if prev_alloc && !next_alloc then
    -- case 3: merge with the next block
    if i + 1 < s.heap.length then
      let block_size := block.size
      let block_next_size := block_next.size
      let s₁ := delete_normal_or_mini s (i + 1)
      let merged := write_block (block_size + block_next_size) false
        block.prevAlloc block.prevMini block_next.ftr
      let s₂ := { s₁ with heap := mergeRun s₁.heap i 2 merged }
      let s₃ := insert_normal_or_mini s₂ i
      some (i, coalesce_finish s₃ i)
    else none
  else
    -- case 4: merge with both neighbours
    if i + 1 < s.heap.length then
      match find_prev i with
      | none => none
      | some p =>
        let block_prev := s.blk p
        let block_size := block.size
        let block_prev_size := block_prev.size
        let block_next_size := block_next.size
        let prev_prev_alloc := block_prev.prevAlloc
        let prev_prev_mini := block_prev.prevMini
        let s₁ := delete_normal_or_mini s (i + 1)
        let s₂ := delete_normal_or_mini s₁ p
        let merged := write_block (block_prev_size + block_size + block_next_size)
          false prev_prev_alloc prev_prev_mini block_next.ftr
        let s₃ := { s₂ with heap := mergeRun s₂.heap p 3 merged }
        let s₄ := insert_normal_or_mini s₃ p
        some (p, coalesce_finish s₄ p)
    else none

/-- The marking phase of free (lines 1523-1542): rewrite the block's
header as free and update the physical successor's `prev_alloc` and
`prev_mini`, before coalescing. -/
def free_mark (s : AllocState) (i : Nat) : AllocState :=
  let block := s.blk i
  let size := block.size
  let s₁ := { s with
    heap := setNth s.heap i (write_block size false block.prevAlloc block.prevMini block.ftr) }
  let block_next := s₁.blk (i + 1)
  setSucc s₁ i (update_block block_next block_next.size block_next.alloc false
    (free_next_prev_mini size))

/-- free of the block at index `i`: mark free, update successor, coalesce
(lines 1516-1548, after payload-to-header resolution). -/
def freeAt (s : AllocState) (i : Nat) : Option (Nat × AllocState) :=
  coalesce_block (free_mark s i) i

/-- free (lines 1516-1548): NULL is a no-op; otherwise resolve the
payload pointer to its block and free it. -/
def freeFn (s : AllocState) (bp : Option Nat) : Option AllocState :=
  match bp with
  | none => some s
  | some p =>
    match idxAt s.heap (p - wsize) with
    | none => none
    | some i => (freeAt s i).map (·.2)

/-- One bucket's scan in find_fit (the `while (block != NULL)` loop,
lines 984-1005), over the chain of block addresses, with `sz` giving
`get_size` of the block at an address.  State: the remaining chain, the
counter `cont`, the best fit so far and its surplus `min_diff`.  Result:
`.inl r` for the early `return best_fit_block` (surplus within
`CLOSE_ENOUGH`), `.inr (cont, best, min_diff)` when the loop ends — with
`cont` reset to 0 when the `SEARCH_LIMIT` break fired, and carried over
unchanged when the chain ended at NULL. -/
def scanList (sz : Nat → Nat) (block_size : Nat) :
    List Nat → Nat → Option Nat → Nat → Sum (Option Nat) (Nat × Option Nat × Nat)
  | [], cont, best, min_diff => .inr (cont, best, min_diff)
  | a :: rest, cont, best, min_diff =>
    if sz a ≥ block_size then
      let diff := sz a - block_size
      let (best', min_diff') :=
        if diff < min_diff then (some a, diff) else (best, min_diff)
      if min_diff' ≤ CLOSE_ENOUGH then .inl best'
      else if cont > SEARCH_LIMIT then .inr (0, best', min_diff')
      else scanList sz block_size rest (cont + 1) best' min_diff'
    else
      if cont > SEARCH_LIMIT then .inr (0, best, min_diff)
      else scanList sz block_size rest (cont + 1) best min_diff

/-- The outer `for (i = seg; i < SEG_LIST_NUM; i++)` loop of find_fit
(lines 982-1006), over the remaining buckets, threading `cont`, the best
fit and its surplus through the bucket scans. -/
def scanBuckets (sz : Nat → Nat) (block_size : Nat) :
    List (List Nat) → Nat → Option Nat → Nat → Option Nat
  | [], _, best, _ => best
  | l :: ls, cont, best, min_diff =>
    match scanList sz block_size l cont best min_diff with
    | .inl r => r
    | .inr (cont', best', min_diff') => scanBuckets sz block_size ls cont' best' min_diff'

/-- find_fit (lines 967-1009): if the request falls in bucket 0 and the
mini list is non-empty, return its head at once; otherwise scan buckets
`seg..14` with `min_diff` starting at `SIZE_MAX`, returning the best fit
found (possibly none). -/
def find_fit (sz : Nat → Nat) (lists : List (List Nat)) (asize : Nat) : Option Nat :=
  let seg := get_list_index asize
  match (if seg = 0 then (lists.getD 0 []).head? else none) with
  | some b => some b
  | none => scanBuckets sz asize (lists.drop seg) 0 none (word_modulus - 1)

/-- One bucket's scan under the claimed search of C4, following the
claim's words: examine at most `SEARCH_LIMIT = 10` entries of this
bucket's list (a fresh allowance per bucket), track the minimum surplus
over fits, return as soon as the running minimum is at most
`CLOSE_ENOUGH`, and otherwise hand the best-so-far to the next bucket. -/
def claimedScanList (sz : Nat → Nat) (asize : Nat) :
    List Nat → Nat → Option Nat → Nat → Sum (Option Nat) (Option Nat × Nat)
  | [], _, best, min_diff => .inr (best, min_diff)
  | _ :: _, 0, best, min_diff => .inr (best, min_diff)
  | a :: rest, Nat.succ allowance, best, min_diff =>
    if sz a ≥ asize then
      let diff := sz a - asize
      let (best', min_diff') :=
        if diff < min_diff then (some a, diff) else (best, min_diff)
      if min_diff' ≤ CLOSE_ENOUGH then .inl best'
      else claimedScanList sz asize rest allowance best' min_diff'
    else claimedScanList sz asize rest allowance best min_diff

/-- Bucket iteration under the claimed search of C4: each bucket gets a
fresh allowance of `SEARCH_LIMIT` entries. -/
def claimedBuckets (sz : Nat → Nat) (asize : Nat) :
    List (List Nat) → Option Nat → Nat → Option Nat
  | [], best, _ => best
  | l :: ls, best, min_diff =>
    match claimedScanList sz asize l SEARCH_LIMIT best min_diff with
    | .inl r => r
    | .inr (best', min_diff') => claimedBuckets sz asize ls best' min_diff'

/-- The search algorithm claim C4 attributes to find_fit, assembled from
the claim's words (same bucket-0 fast path, then the per-bucket bounded
best-fit scan with a fresh 10-entry allowance per bucket). -/
def findFitClaimed (sz : Nat → Nat) (lists : List (List Nat)) (asize : Nat) : Option Nat :=
  let seg := get_list_index asize
  match (if seg = 0 then (lists.getD 0 []).head? else none) with
  | some b => some b
  | none => claimedBuckets sz asize (lists.drop seg) none (word_modulus - 1)

/-- The amended description of find_fit's scan: a single walk over the
current chain and the remaining buckets in which the entry counter is
shared across buckets — it persists when a chain ends, and is reset to 0
exactly when it exceeds `SEARCH_LIMIT` (so a bucket entered with counter 0
can have up to `SEARCH_LIMIT + 2 = 12` entries examined); examining a
fitting entry updates the running best and returns it as soon as the
minimum surplus is at most `CLOSE_ENOUGH`. -/
def ffAmended (sz : Nat → Nat) (asize : Nat) :
    List Nat → List (List Nat) → Nat → Option Nat → Nat → Option Nat
  | [], [], _, best, _ => best
  | [], l :: ls, counter, best, min_diff => ffAmended sz asize l ls counter best min_diff
  | a :: rest, ls, counter, best, min_diff =>
    if sz a ≥ asize then
      let diff := sz a - asize
      let (best', min_diff') :=
        if diff < min_diff then (some a, diff) else (best, min_diff)
      if min_diff' ≤ CLOSE_ENOUGH then best'
      else if counter > SEARCH_LIMIT then
        match ls with
        | [] => best'
        | l :: ls' => ffAmended sz asize l ls' 0 best' min_diff'
      else ffAmended sz asize rest ls (counter + 1) best' min_diff'
    else
      if counter > SEARCH_LIMIT then
        match ls with
        | [] => best
        | l :: ls' => ffAmended sz asize l ls' 0 best min_diff
      else ffAmended sz asize rest ls (counter + 1) best min_diff
termination_by cur ls _ _ _ => (ls.length, cur.length)

/-- The amended find_fit of C4: bucket-0 fast path, then the shared-counter
scan `ffAmended` over buckets `seg..14`. -/
def findFitAmended (sz : Nat → Nat) (lists : List (List Nat)) (asize : Nat) : Option Nat :=
  let seg := get_list_index asize
  match (if seg = 0 then (lists.getD 0 []).head? else none) with
  | some b => some b
  | none =>
    match lists.drop seg with
    | [] => none
    | l :: ls => ffAmended sz asize l ls 0 none (word_modulus - 1)

/-- split_block (lines 932-959): when the surplus is at least
`min_block_size`, rewrite the block to size `asize` (allocated), write the
free remainder after it with `prev_alloc = true` and
`prev_mini = (asize == 16)`, update the block after the remainder, and
insert the remainder. -/
def split_block (s : AllocState) (i : Nat) (asize : Nat) : AllocState :=
  let block := s.blk i
  let block_size := block.size
  if block_size - asize ≥ min_block_size then
    let b := write_block asize true block.prevAlloc block.prevMini 0
    let r := write_block (block_size - asize) false true
      (split_remainder_prev_mini asize) block.ftr
    let s₁ := { s with heap := splice2 s.heap i b r }
    let block_next_next := s₁.blk (i + 2)
    let s₂ := setSucc s₁ (i + 1) (update_block block_next_next block_next_next.size
      block_next_next.alloc false (split_next_prev_mini block_size asize))
    insert_normal_or_mini s₂ (i + 1)
  else s

/-- The growing phase of extend_heap after a successful `mem_sbrk`
(lines 902-911): the old epilogue becomes the header of a free block of
the rounded size, keeping the epilogue's `prev_alloc`/`prev_mini`, and a
new epilogue is written after it with `prev_alloc = false` and
`prev_mini = (size == min_block_size)`. -/
def extend_grow (s : AllocState) (size : Nat) : AllocState :=
  let b := write_block size false s.epi.prevAlloc s.epi.prevMini 0
  { s with
    heap := s.heap ++ [b]
    epi := ⟨0, true, false, extend_epilogue_prev_mini size, 0⟩ }

/-- extend_heap (lines 879-917): round the request up to a multiple of
`dsize`, call `mem_sbrk` (modelled by the capacity counter `avail`; the
request is recorded in the ghost trace), and on success grow the heap and
coalesce the new block with a free predecessor.  `some (none, _)` is the
NULL return on `mem_sbrk` failure — no heap word is written. -/
def extend_heap (s : AllocState) (size : Nat) : Option (Option Nat × AllocState) :=
  let size' := round_up size dsize
  let s₀ := { s with sbrkCalls := size' :: s.sbrkCalls }
  if s₀.avail < size' then some (none, s₀)
  else
    let s₁ := { s₀ with avail := s₀.avail - size' }
    let k := s₁.heap.length
    let s₂ := extend_grow s₁ size'
    (coalesce_block s₂ k).map (fun r => (some r.1, r.2))

/-- The placement phase of malloc once a free block is found
(lines 1485-1501): delete it from its list, mark it allocated, and update
the physical successor's `prev_alloc = true` and
`prev_mini = (block_size == min_block_size)`. -/
def malloc_place (s : AllocState) (i : Nat) : AllocState :=
  let s₁ := delete_normal_or_mini s i
  let block := s₁.blk i
  let block_size := block.size
  let s₂ := { s₁ with
    heap := setNth s₁.heap i (write_block block_size true block.prevAlloc block.prevMini block.ftr) }
  let block_next := s₂.blk (i + 1)
  setSucc s₂ i (update_block block_next block_next.size block_next.alloc true
    (malloc_next_prev_mini block_size))

/-- The tail of malloc from placement on: place, split, and return the
payload pointer (header address plus `wsize`). -/
def malloc_finish (s : AllocState) (i : Nat) (asize : Nat) : Option Nat × AllocState :=
  let s₁ := malloc_place s i
  let s₂ := split_block s₁ i asize
  (some (addrOf s₂.heap i + wsize), s₂)

/-- malloc (lines 1436-1510), on an initialized allocator state (the
specification requires `init` before any operation; the lazy `mm_init`
call for a NULL `heap_start` is outside the model).  Zero requests return
NULL unchanged; otherwise search with the adjusted size, extend the arena
by `max(asize, chunksize)` when no fit is found, and place. -/
def mallocFn (s : AllocState) (size : Nat) : Option (Option Nat × AllocState) :=
  if size = 0 then some (none, s)
  else
    let asize := adjusted_size size
    match find_fit (sizeAt s.heap) s.freeLists asize with
    | some a =>
      match idxAt s.heap a with
      | none => none
      | some i => some (malloc_finish s i asize)
    | none =>
      let extendsize := maxsz asize chunksize
      match extend_heap s extendsize with
      | none => none
      | some (none, s₁) => some (none, s₁)
      | some (some m, s₁) => some (malloc_finish s₁ m asize)

/-- Modelled from the spec: the arena byte primitive `mem_memset`
(memlib, an external collaborator per section 1/6 of the specification,
not part of src): set `n` bytes starting at `dst` to `c`. -/
def mem_memset (m : Nat → Nat) (dst c n : Nat) : Nat → Nat :=
  fun a => if dst ≤ a ∧ a < dst + n then c else m a

/-- Modelled from the spec: the arena byte primitive `mem_memcpy`
(memlib, external collaborator): copy `n` bytes from `src` to `dst`. -/
def mem_memcpy (m : Nat → Nat) (dst src n : Nat) : Nat → Nat :=
  fun a => if dst ≤ a ∧ a < dst + n then m (src + (a - dst)) else m a

/-- realloc (lines 1556-1591): `size == 0` frees and returns NULL;
NULL input is malloc; otherwise malloc the new size (returning NULL with
the old block untouched on failure), copy
`min(size, old payload size)` bytes, and free the old block. -/
def reallocFn (s : AllocState) (ptr : Option Nat) (size : Nat) :
    Option (Option Nat × AllocState) :=
  if size = 0 then (freeFn s ptr).map (fun s' => (none, s'))
  else
    match ptr with
    | none => mallocFn s size
    | some p =>
      match mallocFn s size with
      | none => none
      | some (none, s₁) => some (none, s₁)
      | some (some newp, s₁) =>
        match idxAt s₁.heap (p - wsize) with
        | none => none
        | some i =>
          let copysize := (s₁.blk i).size - wsize
          let copysize := if size < copysize then size else copysize
          let s₂ := { s₁ with mem := mem_memcpy s₁.mem newp p copysize }
          match freeFn s₂ (some p) with
          | none => none
          | some s₃ => some (some newp, s₃)

/-- calloc (lines 1605-1626): `asize = elements * size` in `size_t`
arithmetic; reject zero elements and multiplication overflow (detected by
`asize / elements != size`), then malloc and zero the payload. -/
def callocFn (s : AllocState) (elements size : Nat) : Option (Option Nat × AllocState) :=
  let asize := (elements * size) % word_modulus
  if elements = 0 then some (none, s)
  else if asize / elements ≠ size then some (none, s)
  else
    match mallocFn s asize with
    | none => none
    | some (none, s₁) => some (none, s₁)
    | some (some bp, s₁) => some (some bp, { s₁ with mem := mem_memset s₁.mem bp 0 asize })

/-- check_prologue (lines 1064-1073): the prologue word must have size 0
and the alloc bit set. -/
def check_prologue (prologue : Nat) : Bool :=
  if extract_size prologue ≠ 0 ∨ ¬ extract_alloc prologue then false else true

/-- The `while (get_size(epilogue) != 0)` walk of check_epilogue: the
first zero-size header on the physical chain, the epilogue itself when
no block has size 0. -/
def firstZeroBlk (l : List Blk) (epi : Blk) : Blk :=
  match l with
  | [] => epi
  | b :: rest => if b.size = 0 then b else firstZeroBlk rest epi

/-- check_epilogue (lines 1082-1095): walk to the terminator and require
size 0 and the alloc bit. -/
def check_epilogue (heap : List Blk) (epi : Blk) : Bool :=
  let e := firstZeroBlk heap epi
  if e.size ≠ 0 ∨ ¬ e.alloc then false else true

/-- check_lie_within_heap (lines 1103-1114): walk the physical chain
while sizes are positive and require each block's address within
`[mem_heap_lo, mem_heap_hi]`; the low bound (address 0) cannot fail for
the model's derived addresses, the high bound is checked. -/
def check_lie_within_heap (hi : Nat) (addr : Nat) (l : List Blk) : Bool :=
  match l with
  | [] => true
  | b :: rest =>
    if b.size = 0 then true
    else if addr > hi then false
    else check_lie_within_heap hi (addr + b.size) rest

/-- check_block_alignment (lines 1123-1135): every block size on the
chain is a multiple of `dsize`. -/
def check_block_alignment (l : List Blk) : Bool :=
  match l with
  | [] => true
  | b :: rest =>
    if b.size = 0 then true
    else if b.size % dsize ≠ 0 then false
    else check_block_alignment rest

/-- check_contiguous_free_blocks (lines 1144-1157): no two physically
adjacent free blocks; the walk carries the previous block. -/
def check_contiguous_free_blocks (prv : Blk) (l : List Blk) : Bool :=
  match l with
  | [] => true
  | c :: rest =>
    if c.size = 0 then true
    else if ¬ c.alloc ∧ ¬ prv.alloc then false
    else check_contiguous_free_blocks c rest

/-- check_header_footer_match (lines 1165-1180): while the current block
is a free normal block (size above `min_block_size`, not allocated),
compare the header size with the size stored in the footer word. -/
def check_header_footer_match (l : List Blk) : Bool :=
  match l with
  | [] => true
  | b :: rest =>
    if b.size > min_block_size ∧ ¬ b.alloc then
      if b.size ≠ extract_size b.ftr then false
      else check_header_footer_match rest
    else true

/-- check_minimum_block_size (lines 1188-1201): every block on the chain
has size at least `min_block_size`. -/
def check_minimum_block_size (l : List Blk) : Bool :=
  match l with
  | [] => true
  | b :: rest =>
    if b.size = 0 then true
    else if b.size < min_block_size then false
    else check_minimum_block_size rest

/-- check_cycle (lines 1209-1224): Floyd's tortoise-and-hare over a free
list.  The chain of `next` pointers is represented by the address list,
so the hare advances two list positions per step; equal non-NULL
positions report a cycle (unreachable on the finite chains the list
representation can express, exactly as the C check succeeds on every
acyclic list). -/
def check_cycle (hare tortoise : List Nat) : Bool :=
  match hare, tortoise with
  | [], _ => true
  | [_], _ => true
  | _ :: _ :: hrest, t =>
    let trest := t.drop 1
    if hrest.head?.isSome ∧ hrest.head? = trest.head? then false
    else check_cycle hrest trest

/-- check_alloc (lines 1233-1247): no allocated block on a free list. -/
def check_alloc (blks : List Blk) : Bool :=
  match blks with
  | [] => true
  | b :: rest => if b.alloc then false else check_alloc rest

/-- check_bounds (lines 1257-1273): every free-list pointer lies within
`[mem_heap_lo, mem_heap_hi]`; as for blocks, only the high bound can fail
for model addresses. -/
def check_bounds (hi : Nat) (addrs : List Nat) : Bool :=
  match addrs with
  | [] => true
  | a :: rest => if a > hi then false else check_bounds hi rest

/-- check_consecutive (lines 1282-1297): requires
`block->free.next->free.prev == block` along the chain.  In the list
representation the stored `prev` of the successor element is by
construction the element itself, so each comparison is between an
element and itself; the check can fail only on pointer graphs that no
list represents. -/
def check_consecutive (addrs : List Nat) : Bool :=
  match addrs with
  | [] => true
  | a :: rest =>
    match rest with
    | [] => true
    | b :: _ => if ¬ (a = a) then false else check_consecutive rest

/-- The walk of check_bucket. -/
def check_bucket_go (seg : Nat) (blks : List Blk) : Bool :=
  match blks with
  | [] => true
  | b :: rest => if get_list_index b.size ≠ seg then false else check_bucket_go seg rest

/-- check_bucket (lines 1307-1327): all blocks of a bucket share the
list index computed from the head's size. -/
def check_bucket (blks : List Blk) : Bool :=
  match blks with
  | [] => true
  | b :: _ => check_bucket_go (get_list_index b.size) blks

/-- Resolve a free list's addresses to their block headers (the checker
reads `get_alloc` and `get_size` through the pointers). -/
def chainBlks (s : AllocState) (addrs : List Nat) : List Blk :=
  addrs.map (fun a =>
    match idxAt s.heap a with
    | some i => s.blk i
    | none => ⟨0, true, false, false, 0⟩)

/-- The highest heap address `mem_heap_hi`: prologue word, blocks,
epilogue word, minus one. -/
def heapHi (s : AllocState) : Nat := 8 + sumSizes s.heap + 8 - 1

/-- mm_checkheap (lines 1340-1391).  Each sub-check's result is assigned
to the same variable `consistent`, overwriting the previous one — the
shadowed `let consistent` bindings reproduce the source exactly — and the
loop over buckets 1..14 does the same for the five list checks, so the
returned value is the result of the last sub-check executed. -/
def mm_checkheap (s : AllocState) : Bool :=
  let consistent := false
  let consistent := check_prologue s.proWord
  let consistent := check_epilogue s.heap s.epi
  let consistent := check_lie_within_heap (heapHi s) 8 (s.heap ++ [s.epi])
  let consistent := check_block_alignment (s.heap ++ [s.epi])
  let consistent := check_header_footer_match (s.heap ++ [s.epi])
  let consistent := check_minimum_block_size (s.heap ++ [s.epi])
  let consistent :=
    match s.heap with
    | [] => true
    | b :: rest => check_contiguous_free_blocks b (rest ++ [s.epi])
  let consistent := (List.range' 1 14).foldl (fun consistent i =>
    let l := s.freeLists.getD i []
    let consistent := check_cycle l l
    let consistent := check_alloc (chainBlks s l)
    let consistent := check_bounds (heapHi s) l
    let consistent := check_consecutive l
    let consistent := check_bucket (chainBlks s l)
    consistent) consistent
  consistent

/-! Supporting lemmas about the list primitives and the state operations. -/

theorem nth_ge_length : ∀ (l : List Blk) (i : Nat) (d : Blk), l.length ≤ i → nth l i d = d := by
  intro l
  induction l with
  | nil => intro i d _; cases i <;> rfl
  | cons x rest ih =>
    intro i d h
    cases i with
    | zero => simp at h
    | succ j => exact ih j d (by simpa using h)

theorem nth_lt_irrel : ∀ (l : List Blk) (i : Nat) (d d' : Blk), i < l.length →
    nth l i d = nth l i d' := by
  intro l
  induction l with
  | nil => intro i d d' h; simp at h
  | cons x rest ih =>
    intro i d d' h
    cases i with
    | zero => rfl
    | succ j => exact ih j d d' (by simpa using h)

theorem length_setNth : ∀ (l : List Blk) (i : Nat) (b : Blk),
    (setNth l i b).length = l.length := by
  intro l
  induction l with
  | nil => intro i b; cases i <;> rfl
  | cons x rest ih =>
    intro i b
    cases i with
    | zero => rfl
    | succ j => simpa [setNth] using ih j b

theorem nth_setNth_self : ∀ (l : List Blk) (i : Nat) (b d : Blk), i < l.length →
    nth (setNth l i b) i d = b := by
  intro l
  induction l with
  | nil => intro i b d h; simp at h
  | cons x rest ih =>
    intro i b d h
    cases i with
    | zero => rfl
    | succ j => exact ih j b d (by simpa using h)

theorem nth_setNth_ne : ∀ (l : List Blk) (i j : Nat) (b d : Blk), i ≠ j →
    nth (setNth l i b) j d = nth l j d := by
  intro l
  induction l with
  | nil => intro i j b d _; cases i <;> rfl
  | cons x rest ih =>
    intro i j b d hne
    cases i with
    | zero =>
      cases j with
      | zero => exact absurd rfl hne
      | succ k => rfl
    | succ i' =>
      cases j with
      | zero => rfl
      | succ k => exact ih i' k b d (by omega)

theorem nth_drop : ∀ (n : Nat) (l : List Blk) (m : Nat) (d : Blk),
    nth (l.drop n) m d = nth l (n + m) d := by
  intro n
  induction n with
  | zero => intro l m d; simp
  | succ k ih =>
    intro l m d
    cases l with
    | nil => cases m <;> rfl
    | cons x rest =>
      have : k + 1 + m = k + m + 1 := by omega
      simp [List.drop, ih, this, nth]

theorem nth_mergeRun_self : ∀ (l : List Blk) (p cnt : Nat) (b d : Blk), p < l.length →
    nth (mergeRun l p cnt b) p d = b := by
  intro l
  induction l with
  | nil => intro p cnt b d h; simp at h
  | cons x rest ih =>
    intro p cnt b d h
    cases p with
    | zero => rfl
    | succ q => exact ih q cnt b d (by simpa using h)

theorem nth_mergeRun_succ : ∀ (l : List Blk) (p cnt : Nat) (b d : Blk),
    nth (mergeRun l p cnt b) (p + 1) d = nth l (p + cnt) d := by
  intro l
  induction l with
  | nil => intro p cnt b d; cases p <;> rfl
  | cons x rest ih =>
    intro p cnt b d
    cases p with
    | zero => simpa [mergeRun, nth] using nth_drop cnt (x :: rest) 0 d
    | succ q =>
      have : q + 1 + cnt = q + cnt + 1 := by omega
      simpa [mergeRun, nth, this] using ih q cnt b d

theorem length_mergeRun : ∀ (l : List Blk) (p cnt : Nat) (b : Blk), p < l.length →
    (mergeRun l p cnt b).length = p + 1 + (l.length - (p + cnt)) := by
  intro l
  induction l with
  | nil => intro p cnt b h; simp at h
  | cons x rest ih =>
    intro p cnt b h
    cases p with
    | zero => simp [mergeRun]; omega
    | succ q =>
      have := ih q cnt b (by simpa using h)
      simp [mergeRun, this]; omega

theorem nth_splice2_fst : ∀ (l : List Blk) (i : Nat) (b r d : Blk), i < l.length →
    nth (splice2 l i b r) i d = b := by
  intro l
  induction l with
  | nil => intro i b r d h; simp at h
  | cons x rest ih =>
    intro i b r d h
    cases i with
    | zero => rfl
    | succ j => exact ih j b r d (by simpa using h)

theorem nth_splice2_snd : ∀ (l : List Blk) (i : Nat) (b r d : Blk), i < l.length →
    nth (splice2 l i b r) (i + 1) d = r := by
  intro l
  induction l with
  | nil => intro i b r d h; simp at h
  | cons x rest ih =>
    intro i b r d h
    cases i with
    | zero => rfl
    | succ j => exact ih j b r d (by simpa using h)

theorem length_splice2 : ∀ (l : List Blk) (i : Nat) (b r : Blk), i < l.length →
    (splice2 l i b r).length = l.length + 1 := by
  intro l
  induction l with
  | nil => intro i b r h; simp at h
  | cons x rest ih =>
    intro i b r h
    cases i with
    | zero => simp [splice2]
    | succ j =>
      have := ih j b r (by simpa using h)
      simp [splice2, this]

theorem nth_mem : ∀ (l : List Blk) (i : Nat) (d : Blk), i < l.length → nth l i d ∈ l := by
  intro l
  induction l with
  | nil => intro i d h; simp at h
  | cons x rest ih =>
    intro i d h
    cases i with
    | zero => exact List.mem_cons_self x rest
    | succ j => exact List.mem_cons_of_mem x (ih j d (by simpa using h))

/-! Field lemmas for the header writers. -/

@[simp] theorem write_block_size (size : Nat) (a pa pm : Bool) (f : Nat) :
    (write_block size a pa pm f).size = size := by
  unfold write_block; split <;> rfl

@[simp] theorem write_block_alloc (size : Nat) (a pa pm : Bool) (f : Nat) :
    (write_block size a pa pm f).alloc = a := by
  unfold write_block; split <;> rfl

@[simp] theorem write_block_prevAlloc (size : Nat) (a pa pm : Bool) (f : Nat) :
    (write_block size a pa pm f).prevAlloc = pa := by
  unfold write_block; split <;> rfl

@[simp] theorem write_block_prevMini (size : Nat) (a pa pm : Bool) (f : Nat) :
    (write_block size a pa pm f).prevMini = pm := by
  unfold write_block; split <;> rfl

@[simp] theorem update_block_size (b : Blk) (size : Nat) (a pa pm : Bool) :
    (update_block b size a pa pm).size = size := rfl

@[simp] theorem update_block_alloc (b : Blk) (size : Nat) (a pa pm : Bool) :
    (update_block b size a pa pm).alloc = a := rfl

@[simp] theorem update_block_prevAlloc (b : Blk) (size : Nat) (a pa pm : Bool) :
    (update_block b size a pa pm).prevAlloc = pa := rfl

@[simp] theorem update_block_prevMini (b : Blk) (size : Nat) (a pa pm : Bool) :
    (update_block b size a pa pm).prevMini = pm := rfl

/-! State-shape lemmas for the free-list operations (they only touch the
bucket lists). -/

@[simp] theorem insert_normal_or_mini_heap (s : AllocState) (i : Nat) :
    (insert_normal_or_mini s i).heap = s.heap := by
  unfold insert_normal_or_mini insert_to_mini_free_list insert_to_free_list
  split <;> rfl

@[simp] theorem insert_normal_or_mini_epi (s : AllocState) (i : Nat) :
    (insert_normal_or_mini s i).epi = s.epi := by
  unfold insert_normal_or_mini insert_to_mini_free_list insert_to_free_list
  split <;> rfl

@[simp] theorem insert_normal_or_mini_sbrkCalls (s : AllocState) (i : Nat) :
    (insert_normal_or_mini s i).sbrkCalls = s.sbrkCalls := by
  unfold insert_normal_or_mini insert_to_mini_free_list insert_to_free_list
  split <;> rfl

@[simp] theorem delete_normal_or_mini_heap (s : AllocState) (i : Nat) :
    (delete_normal_or_mini s i).heap = s.heap := by
  unfold delete_normal_or_mini delete_from_mini_free_list delete_from_free_list
  split <;> rfl

@[simp] theorem delete_normal_or_mini_epi (s : AllocState) (i : Nat) :
    (delete_normal_or_mini s i).epi = s.epi := by
  unfold delete_normal_or_mini delete_from_mini_free_list delete_from_free_list
  split <;> rfl

@[simp] theorem delete_normal_or_mini_sbrkCalls (s : AllocState) (i : Nat) :
    (delete_normal_or_mini s i).sbrkCalls = s.sbrkCalls := by
  unfold delete_normal_or_mini delete_from_mini_free_list delete_from_free_list
  split <;> rfl

theorem blk_insert_normal_or_mini (s : AllocState) (i j : Nat) :
    (insert_normal_or_mini s i).blk j = s.blk j := by
  unfold AllocState.blk
  rw [insert_normal_or_mini_heap, insert_normal_or_mini_epi]

theorem blk_delete_normal_or_mini (s : AllocState) (i j : Nat) :
    (delete_normal_or_mini s i).blk j = s.blk j := by
  unfold AllocState.blk
  rw [delete_normal_or_mini_heap, delete_normal_or_mini_epi]

/-! Lemmas about the physical-successor writer. -/

theorem blk_setSucc_succ (s : AllocState) (i : Nat) (b : Blk) :
    (setSucc s i b).blk (i + 1) = b := by
  unfold setSucc AllocState.blk
  split
  · exact nth_setNth_self s.heap (i + 1) b s.epi (by assumption)
  · exact nth_ge_length s.heap (i + 1) b (by omega)

theorem blk_setSucc_of_ne (s : AllocState) (i j : Nat) (b : Blk)
    (hj : j < s.heap.length) (hne : i + 1 ≠ j) :
    (setSucc s i b).blk j = s.blk j := by
  unfold setSucc AllocState.blk
  split
  · rw [nth_setNth_ne s.heap (i + 1) j b s.epi hne]
  · exact nth_lt_irrel s.heap j b s.epi hj

@[simp] theorem setSucc_heap_length (s : AllocState) (i : Nat) (b : Blk) :
    (setSucc s i b).heap.length = s.heap.length := by
  unfold setSucc
  split
  · simpa using length_setNth s.heap (i + 1) b
  · rfl

@[simp] theorem setSucc_sbrkCalls (s : AllocState) (i : Nat) (b : Blk) :
    (setSucc s i b).sbrkCalls = s.sbrkCalls := by
  unfold setSucc; split <;> rfl

theorem blk_coalesce_finish_succ (s : AllocState) (m : Nat) :
    (coalesce_finish s m).blk (m + 1) =
      update_block (s.blk (m + 1)) (s.blk (m + 1)).size (s.blk (m + 1)).alloc false false := by
  unfold coalesce_finish
  exact blk_setSucc_succ s m _

theorem blk_coalesce_finish_self (s : AllocState) (m : Nat) (h : m < s.heap.length) :
    (coalesce_finish s m).blk m = s.blk m := by
  unfold coalesce_finish
  exact blk_setSucc_of_ne s m m _ h (by omega)

theorem blk_setSucc_ge (s : AllocState) (i j : Nat) (b : Blk) (hj : s.heap.length ≤ j) :
    (setSucc s i b).blk j = if i + 1 < s.heap.length then s.epi else b := by
  unfold setSucc AllocState.blk
  split
  · exact nth_ge_length _ j s.epi (by rw [length_setNth]; omega)
  · exact nth_ge_length s.heap j b hj

theorem blk_ge_length (s : AllocState) (j : Nat) (hj : s.heap.length ≤ j) :
    s.blk j = s.epi := nth_ge_length s.heap j s.epi hj

theorem find_prev_zero : find_prev 0 = none := rfl

theorem find_prev_ne_zero (i : Nat) (h : i ≠ 0) : find_prev i = some (i - 1) := by
  unfold find_prev
  rw [if_neg h]

/-! Characterization of the marking phase of free. -/

theorem free_mark_eq (s : AllocState) (i : Nat) :
    free_mark s i =
      setSucc { s with heap := setNth s.heap i (write_block (s.blk i).size false
          (s.blk i).prevAlloc (s.blk i).prevMini (s.blk i).ftr) } i
        (update_block (s.blk (i + 1)) (s.blk (i + 1)).size (s.blk (i + 1)).alloc false
          (free_next_prev_mini (s.blk i).size)) := by
  unfold free_mark
  have h : nth (setNth s.heap i (write_block (s.blk i).size false (s.blk i).prevAlloc
      (s.blk i).prevMini (s.blk i).ftr)) (i + 1) s.epi = s.blk (i + 1) :=
    nth_setNth_ne s.heap i (i + 1) _ s.epi (by omega)
  unfold AllocState.blk at h ⊢
  simp only [h]

theorem free_mark_heap_length (s : AllocState) (i : Nat) :
    (free_mark s i).heap.length = s.heap.length := by
  rw [free_mark_eq, setSucc_heap_length]
  exact length_setNth s.heap i _

theorem free_mark_blk_self (s : AllocState) (i : Nat) (h : i < s.heap.length) :
    (free_mark s i).blk i =
      write_block (s.blk i).size false (s.blk i).prevAlloc (s.blk i).prevMini (s.blk i).ftr := by
  rw [free_mark_eq]
  rw [blk_setSucc_of_ne _ i i _ (by simpa [length_setNth] using h) (by omega)]
  unfold AllocState.blk
  exact nth_setNth_self s.heap i _ s.epi h

theorem free_mark_blk_succ (s : AllocState) (i : Nat) :
    (free_mark s i).blk (i + 1) =
      update_block (s.blk (i + 1)) (s.blk (i + 1)).size (s.blk (i + 1)).alloc false
        (free_next_prev_mini (s.blk i).size) := by
  rw [free_mark_eq, blk_setSucc_succ]

theorem free_mark_blk_size (s : AllocState) (i j : Nat) :
    ((free_mark s i).blk j).size = (s.blk j).size := by
  rw [free_mark_eq]
  by_cases hj1 : j = i + 1
  · subst hj1
    rw [blk_setSucc_succ]
    rfl
  · by_cases hj : j < s.heap.length
    · rw [blk_setSucc_of_ne _ i j _ (by simpa [length_setNth] using hj) (by omega)]
      show (nth (setNth s.heap i _) j s.epi).size = _
      by_cases hji : j = i
      · subst hji
        rw [nth_setNth_self s.heap j _ s.epi hj, write_block_size]
      · rw [nth_setNth_ne s.heap i j _ s.epi (by omega)]
        rfl
    · rw [blk_setSucc_ge _ i j _ (by simpa [length_setNth] using hj)]
      rw [blk_ge_length s j (by omega)]
      split
      · rfl
      · rename_i hge
        rw [update_block_size]
        have : s.blk (i + 1) = s.epi :=
          blk_ge_length s (i + 1) (by simp [length_setNth] at hge; omega)
        rw [this]

/-- After a merge writes `merged` over a run at position `p` (cases 2-4 of
coalesce_block), the insertion and the final successor rewrite leave the
successor with `prev_alloc = false` and `prev_mini = false`, which equals
`size == min_block_size` because merged sizes exceed it. -/
theorem merged_successor (t : AllocState) (p cnt : Nat) (merged : Blk)
    (hp : p < t.heap.length)
    (hne : merged.size ≠ min_block_size) :
    ((coalesce_finish (insert_normal_or_mini
        { t with heap := mergeRun t.heap p cnt merged } p) p).blk (p + 1)).prevAlloc = false ∧
    ((coalesce_finish (insert_normal_or_mini
        { t with heap := mergeRun t.heap p cnt merged } p) p).blk (p + 1)).prevMini =
      (((coalesce_finish (insert_normal_or_mini
        { t with heap := mergeRun t.heap p cnt merged } p) p).blk p).size == min_block_size) := by
  set s₂ : AllocState := { t with heap := mergeRun t.heap p cnt merged } with hs₂
  have hlen₂ : p < s₂.heap.length := by
    show p < (mergeRun t.heap p cnt merged).length
    rw [length_mergeRun t.heap p cnt merged hp]
    omega
  constructor
  · rw [blk_coalesce_finish_succ, update_block_prevAlloc]
  · rw [blk_coalesce_finish_succ, update_block_prevMini]
    have h1 : (coalesce_finish (insert_normal_or_mini s₂ p) p).blk p = s₂.blk p := by
      rw [blk_coalesce_finish_self _ p (by simpa [insert_normal_or_mini_heap] using hlen₂),
        blk_insert_normal_or_mini]
    rw [h1]
    have h2 : s₂.blk p = merged := nth_mergeRun_self t.heap p cnt merged t.epi hp
    rw [h2, beq_eq_false_iff_ne.mpr hne]

/-- The successor-flag behaviour of the coalescing state machine: whenever
`coalesce_block` succeeds on a heap of well-sized blocks, and — for the
early-returning case 1, which performs no successor write of its own — the
successor already carries the flags the caller just wrote, the merged
block's physical successor ends with `prev_alloc = false` and
`prev_mini = (merged size == min_block_size)`. -/
theorem coalesce_successor (s : AllocState) (i m : Nat) (s' : AllocState)
    (hsz : ∀ b ∈ s.heap, min_block_size ≤ b.size)
    (hi : i < s.heap.length)
    (hc1 : (s.blk i).prevAlloc = true → (s.blk (i + 1)).alloc = true →
      (s.blk (i + 1)).prevAlloc = false ∧
        (s.blk (i + 1)).prevMini = ((s.blk i).size == min_block_size))
    (h : coalesce_block s i = some (m, s')) :
    (s'.blk (m + 1)).prevAlloc = false ∧
      (s'.blk (m + 1)).prevMini = ((s'.blk m).size == min_block_size) := by
  have hszi : min_block_size ≤ (s.blk i).size := hsz _ (nth_mem s.heap i s.epi hi)
  unfold coalesce_block at h
  by_cases hpa : (s.blk i).prevAlloc = true <;> by_cases hna : (s.blk (i + 1)).alloc = true
  · -- case 1: both neighbours allocated
    simp only [hpa, hna, Bool.and_self, if_true, Option.some.injEq, Prod.mk.injEq] at h
    obtain ⟨hm, hs'⟩ := h
    subst hm; subst hs'
    rw [blk_insert_normal_or_mini, blk_insert_normal_or_mini]
    exact hc1 hpa hna
  · -- case 3: next free, merge forward
    rw [Bool.not_eq_true] at hna
    simp only [hpa, hna] at h
    simp only [Bool.and_false, Bool.not_true, Bool.false_and, Bool.not_false, Bool.and_true,
      Bool.true_and, Bool.and_self, Bool.false_eq_true, if_false, if_true,
      reduceIte] at h
    by_cases hlen : i + 1 < s.heap.length
    · rw [if_pos hlen] at h
      simp only [Option.some.injEq, Prod.mk.injEq] at h
      obtain ⟨hm, hs'⟩ := h
      subst hm; subst hs'
      have hszn : min_block_size ≤ (s.blk (i + 1)).size :=
        hsz _ (nth_mem s.heap (i + 1) s.epi hlen)
      refine merged_successor _ _ _ _ ?_ ?_
      · simpa [delete_normal_or_mini_heap] using hi
      · rw [write_block_size]
        simp only [min_block_size, dsize] at *
        omega
    · rw [if_neg hlen] at h
      exact Option.noConfusion h
  · -- case 2: previous free, merge backward
    rw [Bool.not_eq_true] at hpa
    simp only [hpa, hna] at h
    simp only [Bool.and_false, Bool.not_true, Bool.false_and, Bool.not_false, Bool.and_true,
      Bool.true_and, Bool.and_self, Bool.false_eq_true, if_false, if_true,
      reduceIte] at h
    split at h
    · exact Option.noConfusion h
    · rename_i p hfp
      have hi0 : i ≠ 0 := by
        intro h0
        subst h0
        rw [find_prev_zero] at hfp
        exact Option.noConfusion hfp
      rw [find_prev_ne_zero i hi0] at hfp
      have hpeq : p = i - 1 := (Option.some.inj hfp).symm
      subst hpeq
      simp only [Option.some.injEq, Prod.mk.injEq] at h
      obtain ⟨hm, hs'⟩ := h
      subst hm; subst hs'
      have hszp : min_block_size ≤ (s.blk (i - 1)).size :=
        hsz _ (nth_mem s.heap (i - 1) s.epi (by omega))
      refine merged_successor _ _ _ _ ?_ ?_
      · simpa [delete_normal_or_mini_heap] using (by omega : i - 1 < s.heap.length)
      · rw [write_block_size]
        simp only [min_block_size, dsize] at *
        omega
  · -- case 4: both neighbours free, merge both ways
    rw [Bool.not_eq_true] at hpa hna
    simp only [hpa, hna] at h
    simp only [Bool.and_false, Bool.not_true, Bool.false_and, Bool.not_false, Bool.and_true,
      Bool.true_and, Bool.and_self, Bool.false_eq_true, if_false, if_true,
      reduceIte] at h
    by_cases hlen : i + 1 < s.heap.length
    · rw [if_pos hlen] at h
      split at h
      · exact Option.noConfusion h
      · rename_i p hfp
        have hi0 : i ≠ 0 := by
          intro h0
          subst h0
          rw [find_prev_zero] at hfp
          exact Option.noConfusion hfp
        rw [find_prev_ne_zero i hi0] at hfp
        have hpeq : p = i - 1 := (Option.some.inj hfp).symm
        subst hpeq
        simp only [Option.some.injEq, Prod.mk.injEq] at h
        obtain ⟨hm, hs'⟩ := h
        subst hm; subst hs'
        have hszp : min_block_size ≤ (s.blk (i - 1)).size :=
          hsz _ (nth_mem s.heap (i - 1) s.epi (by omega))
        have hszn : min_block_size ≤ (s.blk (i + 1)).size :=
          hsz _ (nth_mem s.heap (i + 1) s.epi hlen)
        refine merged_successor _ _ _ _ ?_ ?_
        · simpa [delete_normal_or_mini_heap] using (by omega : i - 1 < s.heap.length)
        · rw [write_block_size]
          simp only [min_block_size, dsize] at *
          omega
    · rw [if_neg hlen] at h
      exact Option.noConfusion h

theorem nth_append_length : ∀ (l : List Blk) (b d : Blk), nth (l ++ [b]) l.length d = b := by
  intro l
  induction l with
  | nil => intro b d; rfl
  | cons x rest ih => intro b d; simpa [nth] using ih b d

theorem nth_of_mem : ∀ (l : List Blk) (b d : Blk), b ∈ l →
    ∃ j, j < l.length ∧ nth l j d = b := by
  intro l
  induction l with
  | nil => intro b d h; simp at h
  | cons x rest ih =>
    intro b d h
    rcases List.mem_cons.mp h with h | h
    · exact ⟨0, by simp, h.symm⟩
    · obtain ⟨j, hj, hnth⟩ := ih b d h
      exact ⟨j + 1, by simpa using hj, hnth⟩

/-- Any successful extension factors through a coalesce of the grown
heap: the old blocks plus the freshly written free block, under the new
epilogue. -/
theorem extend_heap_success (s : AllocState) (size m : Nat) (s' : AllocState)
    (h : extend_heap s size = some (some m, s')) :
    ∃ t : AllocState, coalesce_block t s.heap.length = some (m, s') ∧
      t.heap = s.heap ++
        [write_block (round_up size dsize) false s.epi.prevAlloc s.epi.prevMini 0] ∧
      t.epi = ⟨0, true, false, extend_epilogue_prev_mini (round_up size dsize), 0⟩ := by
  simp only [extend_heap, extend_grow] at h
  split at h
  · simp at h
  · rw [Option.map_eq_some'] at h
    obtain ⟨⟨m', t'⟩, hc, hfr⟩ := h
    simp only [Prod.mk.injEq, Option.some.injEq] at hfr
    obtain ⟨hm, hs'⟩ := hfr
    subst hm; subst hs'
    exact ⟨_, hc, rfl, rfl⟩

/-- C1: for every coalesce of a just-freed block — performed by free and
by extend_heap via coalesce_block — after coalescing, the header of the
merged block's physical successor has `prev_alloc = false` and
`prev_mini = (merged block's size == 16)`; in particular, when both
physical neighbours are allocated (case 1) and the freed block is a
16-byte mini block, the successor's `prev_mini` flag is true after
coalescing. -/
theorem C1_coalesce_successor_flags :
    (∀ (s : AllocState) (i m : Nat) (s' : AllocState),
        (∀ b ∈ s.heap, min_block_size ≤ b.size) →
        i < s.heap.length →
        freeAt s i = some (m, s') →
        (s'.blk (m + 1)).prevAlloc = false ∧
          (s'.blk (m + 1)).prevMini = ((s'.blk m).size == min_block_size)) ∧
    (∀ (s : AllocState) (size m : Nat) (s' : AllocState),
        (∀ b ∈ s.heap, min_block_size ≤ b.size) →
        min_block_size ≤ round_up size dsize →
        extend_heap s size = some (some m, s') →
        (s'.blk (m + 1)).prevAlloc = false ∧
          (s'.blk (m + 1)).prevMini = ((s'.blk m).size == min_block_size)) := by
  constructor
  · intro s i m s' hsz hi h
    unfold freeAt at h
    refine coalesce_successor (free_mark s i) i m s' ?_ ?_ ?_ h
    · intro b hb
      obtain ⟨j, hj, hnth⟩ := nth_of_mem (free_mark s i).heap b (free_mark s i).epi hb
      have hjlen : j < s.heap.length := by
        rwa [free_mark_heap_length] at hj
      have : nth (free_mark s i).heap j (free_mark s i).epi = (free_mark s i).blk j := rfl
      rw [this] at hnth
      rw [← hnth]
      rw [free_mark_blk_size]
      exact hsz _ (nth_mem s.heap j s.epi hjlen)
    · rwa [free_mark_heap_length]
    · intro _ _
      constructor
      · rw [free_mark_blk_succ]
        rfl
      · rw [free_mark_blk_succ, free_mark_blk_size, update_block_prevMini]
        rfl
  · intro s size m s' hsz hsz' h
    obtain ⟨t, hc, theap, tepi⟩ := extend_heap_success s size m s' h
    refine coalesce_successor t s.heap.length m s' ?_ ?_ ?_ hc
    · intro b hb
      rw [theap] at hb
      rcases List.mem_append.mp hb with hb | hb
      · exact hsz _ hb
      · rw [List.mem_singleton.mp hb, write_block_size]
        exact hsz'
    · rw [theap]
      simp
    · intro _ _
      have hsucc : t.blk (s.heap.length + 1) = t.epi := by
        apply blk_ge_length
        rw [theap]
        simp
      have hself : t.blk s.heap.length =
          write_block (round_up size dsize) false s.epi.prevAlloc s.epi.prevMini 0 := by
        show nth t.heap s.heap.length t.epi = _
        rw [theap]
        exact nth_append_length s.heap _ t.epi
      constructor
      · rw [hsucc, tepi]
      · rw [hsucc, tepi, hself, write_block_size]
        rfl

/-! Concrete test states for the witnesses and counterexamples. -/

/-- An allocator state right after init: prologue word `pack(0,1,1,0) = 3`,
one free 2048-byte block (the seeded chunk) with its footer, an epilogue
with `prev_alloc = false`, the block on bucket 6, no arena slack left. -/
def initState : AllocState :=
  ⟨3, [⟨2048, false, true, false, pack 2048 false true false⟩],
    ⟨0, true, false, false, 0⟩,
    [[], [], [], [], [], [], [8], [], [], [], [], [], [], [], []],
    fun _ => 0, 0, []⟩

/-- A heap whose single block is a free mini block on bucket 0. -/
def miniState : AllocState :=
  ⟨3, [⟨16, false, true, false, 0⟩],
    ⟨0, true, false, true, 0⟩,
    [[8], [], [], [], [], [], [], [], [], [], [], [], [], [], []],
    fun _ => 0, 0, []⟩

/-- Three allocated blocks, the middle one a 16-byte mini block (both its
neighbours allocated: freeing it is coalescing case 1). -/
def c1State : AllocState :=
  ⟨3, [⟨32, true, true, false, 0⟩, ⟨16, true, true, false, 0⟩, ⟨32, true, true, true, 0⟩],
    ⟨0, true, true, false, 0⟩,
    [[], [], [], [], [], [], [], [], [], [], [], [], [], [], []],
    fun _ => 0, 0, []⟩

/-- One allocated block and 2048 bytes of arena slack, for exercising
extend_heap. -/
def extState : AllocState :=
  ⟨3, [⟨32, true, true, false, 0⟩],
    ⟨0, true, true, false, 0⟩,
    [[], [], [], [], [], [], [], [], [], [], [], [], [], [], []],
    fun _ => 0, 2048, []⟩

/-- An empty heap (prologue directly followed by the epilogue), all
buckets empty, no arena slack: every search misses and every extension is
refused. -/
def emptyState : AllocState :=
  ⟨3, [], ⟨0, true, true, false, 0⟩,
    [[], [], [], [], [], [], [], [], [], [], [], [], [], [], []],
    fun _ => 0, 0, []⟩

/-- Witness for C1: freeing the mini block of `c1State` (case 1) leaves
its successor with `prev_alloc = false` and `prev_mini = true` — the
merged block is the 16-byte block itself — and a successful extension of
`extState` leaves the new epilogue with `prev_alloc = false` and
`prev_mini = (2048 == 16) = false`. -/
theorem C1_coalesce_successor_flags_witness :
    (∃ s', freeAt c1State 1 = some (1, s') ∧
      (s'.blk 2).prevAlloc = false ∧
      (s'.blk 2).prevMini = ((s'.blk 1).size == min_block_size) ∧
      (s'.blk 1).size = 16 ∧ (s'.blk 2).prevMini = true) ∧
    (∃ s', extend_heap extState 2048 = some (some 1, s') ∧
      (s'.blk 2).prevAlloc = false ∧
      (s'.blk 2).prevMini = ((s'.blk 1).size == min_block_size)) := by
  constructor
  · refine ⟨_, rfl, ?_⟩
    have h := C1_coalesce_successor_flags.1 c1State 1 1 _ (by decide) (by decide) rfl
    exact ⟨h.1, h.2, by decide, by decide⟩
  · refine ⟨_, rfl, ?_⟩
    exact C1_coalesce_successor_flags.2 extState 2048 1 _ (by decide) (by decide) rfl

/-! Characterization of the placement phase of malloc, mirroring the
free_mark lemmas. -/

theorem malloc_place_eq (s : AllocState) (i : Nat) :
    malloc_place s i =
      setSucc { delete_normal_or_mini s i with heap := setNth s.heap i (write_block
          (s.blk i).size true (s.blk i).prevAlloc (s.blk i).prevMini (s.blk i).ftr) } i
        (update_block (s.blk (i + 1)) (s.blk (i + 1)).size (s.blk (i + 1)).alloc true
          (malloc_next_prev_mini (s.blk i).size)) := by
  unfold malloc_place
  have hd : ∀ j : Nat, (delete_normal_or_mini s i).blk j = s.blk j :=
    blk_delete_normal_or_mini s i
  have hh : (delete_normal_or_mini s i).heap = s.heap := delete_normal_or_mini_heap s i
  have he : (delete_normal_or_mini s i).epi = s.epi := delete_normal_or_mini_epi s i
  have h : nth (setNth s.heap i (write_block (s.blk i).size true (s.blk i).prevAlloc
      (s.blk i).prevMini (s.blk i).ftr)) (i + 1) s.epi = s.blk (i + 1) :=
    nth_setNth_ne s.heap i (i + 1) _ s.epi (by omega)
  unfold AllocState.blk at hd h ⊢
  simp only [hd, hh, he, h]

theorem malloc_place_blk_succ (s : AllocState) (i : Nat) :
    (malloc_place s i).blk (i + 1) =
      update_block (s.blk (i + 1)) (s.blk (i + 1)).size (s.blk (i + 1)).alloc true
        (malloc_next_prev_mini (s.blk i).size) := by
  rw [malloc_place_eq, blk_setSucc_succ]

theorem malloc_place_blk_size (s : AllocState) (i j : Nat) :
    ((malloc_place s i).blk j).size = (s.blk j).size := by
  rw [malloc_place_eq]
  set t : AllocState := { delete_normal_or_mini s i with heap := setNth s.heap i (write_block
    (s.blk i).size true (s.blk i).prevAlloc (s.blk i).prevMini (s.blk i).ftr) } with ht
  have htepi : t.epi = s.epi := delete_normal_or_mini_epi s i
  have htlen : t.heap.length = s.heap.length := length_setNth s.heap i _
  by_cases hj1 : j = i + 1
  · subst hj1
    rw [blk_setSucc_succ]
    rfl
  · by_cases hj : j < s.heap.length
    · rw [blk_setSucc_of_ne t i j _ (by omega) (by omega)]
      have hblk : t.blk j = nth (setNth s.heap i (write_block (s.blk i).size true
          (s.blk i).prevAlloc (s.blk i).prevMini (s.blk i).ftr)) j s.epi := by
        unfold AllocState.blk
        rw [htepi]
        rfl
      rw [hblk]
      by_cases hji : j = i
      · subst hji
        rw [nth_setNth_self s.heap j _ s.epi hj, write_block_size]
      · rw [nth_setNth_ne s.heap i j _ s.epi (by omega)]
        rfl
    · rw [blk_setSucc_ge t i j _ (by omega)]
      rw [blk_ge_length s j (by omega)]
      split
      · rw [htepi]
      · rename_i hge
        rw [update_block_size]
        have : s.blk (i + 1) = s.epi := blk_ge_length s (i + 1) (by omega)
        rw [this]

/-- C2: at every site where the allocator writes a physical successor's
`prev_mini` flag — in malloc after marking the fitted block allocated, in
free after marking the block free, in split_block for the remainder's own
header and for the block after the remainder, and in extend_heap for the
new epilogue — the value written equals (the physically preceding block's
size == 16); the `true ? cond : false` conditionals parse as `cond`. -/
theorem C2_prev_mini_writes :
    (∀ (s : AllocState) (i : Nat),
        ((free_mark s i).blk (i + 1)).prevMini =
          (((free_mark s i).blk i).size == min_block_size)) ∧
    (∀ (s : AllocState) (i : Nat),
        ((malloc_place s i).blk (i + 1)).prevMini =
          (((malloc_place s i).blk i).size == min_block_size)) ∧
    (∀ (s : AllocState) (i asize : Nat), i < s.heap.length →
        min_block_size ≤ (s.blk i).size - asize →
        ((split_block s i asize).blk (i + 1)).prevMini =
          (((split_block s i asize).blk i).size == min_block_size) ∧
        ((split_block s i asize).blk (i + 2)).prevMini =
          (((split_block s i asize).blk (i + 1)).size == min_block_size)) ∧
    (∀ (s : AllocState) (size : Nat),
        (extend_grow s size).epi.prevMini =
          (((extend_grow s size).blk s.heap.length).size == min_block_size)) := by
  refine ⟨?_, ?_, ?_, ?_⟩
  · intro s i
    rw [free_mark_blk_succ, free_mark_blk_size, update_block_prevMini]
    rfl
  · intro s i
    rw [malloc_place_blk_succ, malloc_place_blk_size, update_block_prevMini]
    rfl
  · intro s i asize hi hsplit
    unfold split_block
    rw [if_pos hsplit]
    set b := write_block asize true (s.blk i).prevAlloc (s.blk i).prevMini 0 with hb
    set r := write_block ((s.blk i).size - asize) false true
      (split_remainder_prev_mini asize) (s.blk i).ftr with hr
    set s₁ : AllocState := { s with heap := splice2 s.heap i b r } with hs₁
    have hlen₁ : s₁.heap.length = s.heap.length + 1 := by
      show (splice2 s.heap i b r).length = s.heap.length + 1
      exact length_splice2 s.heap i b r hi
    set B := update_block (s₁.blk (i + 2)) (s₁.blk (i + 2)).size (s₁.blk (i + 2)).alloc
      false (split_next_prev_mini (s.blk i).size asize) with hB
    set s₂ := setSucc s₁ (i + 1) B with hs₂
    have hblk1 : s₂.blk (i + 1) = r := by
      rw [hs₂, blk_setSucc_of_ne s₁ (i + 1) (i + 1) B (by omega) (by omega)]
      show nth (splice2 s.heap i b r) (i + 1) s.epi = r
      exact nth_splice2_snd s.heap i b r s.epi hi
    have hblk0 : s₂.blk i = b := by
      rw [hs₂, blk_setSucc_of_ne s₁ (i + 1) i B (by omega) (by omega)]
      show nth (splice2 s.heap i b r) i s.epi = b
      exact nth_splice2_fst s.heap i b r s.epi hi
    have hblk2 : s₂.blk (i + 2) = B := blk_setSucc_succ s₁ (i + 1) B
    constructor
    · rw [blk_insert_normal_or_mini, blk_insert_normal_or_mini, hblk1, hblk0, hr, hb,
        write_block_prevMini, write_block_size]
      rfl
    · rw [blk_insert_normal_or_mini, blk_insert_normal_or_mini, hblk2, hblk1, hB,
        update_block_prevMini, hr, write_block_size]
      rfl
  · intro s size
    have h : (extend_grow s size).blk s.heap.length =
        write_block size false s.epi.prevAlloc s.epi.prevMini 0 := by
      show nth (s.heap ++ [write_block size false s.epi.prevAlloc s.epi.prevMini 0])
        s.heap.length (extend_grow s size).epi = _
      exact nth_append_length s.heap _ _
    rw [h, write_block_size]
    rfl

/-- Witness for C2 at concrete sites: freeing the initial block, and
splitting a 32-byte allocation out of it. -/
theorem C2_prev_mini_writes_witness :
    ((free_mark initState 0).blk 1).prevMini =
      (((free_mark initState 0).blk 0).size == min_block_size) ∧
    ((split_block initState 0 32).blk 1).prevMini =
      (((split_block initState 0 32).blk 0).size == min_block_size) ∧
    ((split_block initState 0 32).blk 2).prevMini =
      (((split_block initState 0 32).blk 1).size == min_block_size) := by
  refine ⟨C2_prev_mini_writes.1 initState 0, ?_, ?_⟩
  · exact (C2_prev_mini_writes.2.2.1 initState 0 32 (by decide) (by decide)).1
  · exact (C2_prev_mini_writes.2.2.1 initState 0 32 (by decide) (by decide)).2

/-- C7: free(null) is a no-op; realloc(null, n) behaves as malloc(n) for
every n (including n = 0, where both return NULL leaving the state
unchanged); realloc(p, 0) behaves as free(p) followed by returning
NULL. -/
theorem C7_null_algebra :
    (∀ s : AllocState, freeFn s none = some s) ∧
    (∀ (s : AllocState) (n : Nat), reallocFn s none n = mallocFn s n) ∧
    (∀ (s : AllocState) (p : Nat), reallocFn s (some p) 0 =
      (freeFn s (some p)).map (fun s' => ((none : Option Nat), s'))) := by
  refine ⟨fun s => rfl, ?_, fun s p => rfl⟩
  intro s n
  by_cases hn : n = 0
  · subst hn
    rfl
  · unfold reallocFn
    rw [if_neg hn]

/-! Ghost-trace preservation lemmas: only `mem_sbrk` (inside extend_heap)
records a request. -/

theorem coalesce_finish_sbrkCalls (s : AllocState) (m : Nat) :
    (coalesce_finish s m).sbrkCalls = s.sbrkCalls := by
  unfold coalesce_finish
  rw [setSucc_sbrkCalls]

theorem coalesce_block_sbrkCalls (s : AllocState) (i : Nat) (r : Nat × AllocState)
    (h : coalesce_block s i = some r) : r.2.sbrkCalls = s.sbrkCalls := by
  unfold coalesce_block at h
  by_cases hpa : (s.blk i).prevAlloc = true <;> by_cases hna : (s.blk (i + 1)).alloc = true
  · simp only [hpa, hna, Bool.and_self, if_true, Option.some.injEq] at h
    subst h
    simp [insert_normal_or_mini_sbrkCalls]
  · rw [Bool.not_eq_true] at hna
    simp only [hpa, hna] at h
    simp only [Bool.and_false, Bool.not_true, Bool.false_and, Bool.not_false, Bool.and_true,
      Bool.true_and, Bool.and_self, Bool.false_eq_true, if_false, if_true, reduceIte] at h
    split at h
    · simp only [Option.some.injEq] at h
      subst h
      simp [coalesce_finish_sbrkCalls, insert_normal_or_mini_sbrkCalls,
        delete_normal_or_mini_sbrkCalls]
    · exact Option.noConfusion h
  · rw [Bool.not_eq_true] at hpa
    simp only [hpa, hna] at h
    simp only [Bool.and_false, Bool.not_true, Bool.false_and, Bool.not_false, Bool.and_true,
      Bool.true_and, Bool.and_self, Bool.false_eq_true, if_false, if_true, reduceIte] at h
    split at h
    · exact Option.noConfusion h
    · rename_i p hfp
      simp only [Option.some.injEq] at h
      subst h
      simp [coalesce_finish_sbrkCalls, insert_normal_or_mini_sbrkCalls,
        delete_normal_or_mini_sbrkCalls]
  · rw [Bool.not_eq_true] at hpa hna
    simp only [hpa, hna] at h
    simp only [Bool.and_false, Bool.not_true, Bool.false_and, Bool.not_false, Bool.and_true,
      Bool.true_and, Bool.and_self, Bool.false_eq_true, if_false, if_true, reduceIte] at h
    split at h
    · split at h
      · exact Option.noConfusion h
      · rename_i p hfp
        simp only [Option.some.injEq] at h
        subst h
        simp [coalesce_finish_sbrkCalls, insert_normal_or_mini_sbrkCalls,
          delete_normal_or_mini_sbrkCalls]
    · exact Option.noConfusion h

theorem extend_grow_sbrkCalls (s : AllocState) (size : Nat) :
    (extend_grow s size).sbrkCalls = s.sbrkCalls := rfl

theorem split_block_sbrkCalls (s : AllocState) (i asize : Nat) :
    (split_block s i asize).sbrkCalls = s.sbrkCalls := by
  simp only [split_block]
  split
  · rw [insert_normal_or_mini_sbrkCalls, setSucc_sbrkCalls]
  · rfl

theorem malloc_place_sbrkCalls (s : AllocState) (i : Nat) :
    (malloc_place s i).sbrkCalls = s.sbrkCalls := by
  rw [malloc_place_eq, setSucc_sbrkCalls]
  exact delete_normal_or_mini_sbrkCalls s i

theorem extend_heap_sbrkCalls (s : AllocState) (size : Nat) (res : Option Nat × AllocState)
    (h : extend_heap s size = some res) :
    res.2.sbrkCalls = round_up size dsize :: s.sbrkCalls := by
  simp only [extend_heap] at h
  split at h
  · have := Option.some.inj h
    subst this
    rfl
  · rw [Option.map_eq_some'] at h
    obtain ⟨⟨m, t⟩, hc, hf⟩ := h
    subst hf
    exact coalesce_block_sbrkCalls _ _ _ hc

/-- The adjusted size is always a multiple of 16 that fits the word. -/
theorem adjusted_size_mult16 (n : Nat) :
    adjusted_size n % 16 = 0 ∧ adjusted_size n ≤ word_modulus - 16 := by
  unfold adjusted_size round_up min_block_size dsize wsize word_modulus
  split
  · omega
  · omega

/-- Rounding a 16-aligned representable size up to a multiple of dsize is
the identity. -/
theorem round_up_16_id (a : Nat) (h16 : a % 16 = 0) (hle : a ≤ word_modulus - 16) :
    round_up a dsize = a := by
  unfold round_up dsize word_modulus at *
  omega

/-- The arena request malloc makes when no fit is found survives
extend_heap's rounding unchanged. -/
theorem round_up_extendsize (n : Nat) :
    round_up (maxsz (adjusted_size n) chunksize) dsize = maxsz (adjusted_size n) chunksize := by
  obtain ⟨h16, hle⟩ := adjusted_size_mult16 n
  unfold maxsz chunksize
  split
  · exact round_up_16_id _ h16 hle
  · exact round_up_16_id 2048 (by decide) (by decide)

/-- C5: malloc(0) returns null without changing allocator state; for
0 < n ≤ 8 the adjusted block size used for fitting is 16; for n > 8
(without wrap) it is round_up(n + 8, 16) — the least multiple of 16 at
least n + 8; and when no fit is found, the arena request is
max(adjusted size, 2048). -/
theorem C5_malloc_basics :
    (∀ s : AllocState, mallocFn s 0 = some (none, s)) ∧
    (∀ n : Nat, 0 < n → n ≤ 8 → adjusted_size n = 16) ∧
    (∀ n : Nat, 8 < n → n + 23 < word_modulus →
      adjusted_size n = round_up ((n + 8) % word_modulus) dsize ∧
      n + 8 ≤ adjusted_size n ∧ adjusted_size n < n + 24 ∧ adjusted_size n % 16 = 0) ∧
    (∀ (s : AllocState) (n : Nat), n ≠ 0 →
      find_fit (sizeAt s.heap) s.freeLists (adjusted_size n) = none →
      ∀ r : Option Nat × AllocState, mallocFn s n = some r →
        r.2.sbrkCalls = maxsz (adjusted_size n) chunksize :: s.sbrkCalls) := by
  refine ⟨fun s => rfl, ?_, ?_, ?_⟩
  · intro n hn h8
    unfold adjusted_size
    rw [if_pos (show n ≤ wsize from h8)]
    rfl
  · intro n hn hlt
    have h8 : ¬ n ≤ wsize := by simp only [wsize]; omega
    refine ⟨by unfold adjusted_size; rw [if_neg h8]; rfl, ?_⟩
    unfold adjusted_size round_up
    rw [if_neg h8]
    simp only [wsize, dsize, word_modulus] at *
    omega
  · intro s n hn hff r hr
    unfold mallocFn at hr
    rw [if_neg hn] at hr
    simp only [hff] at hr
    rcases hext : extend_heap s (maxsz (adjusted_size n) chunksize) with _ | ⟨o, s₁⟩
    · rw [hext] at hr
      exact Option.noConfusion hr
    · rw [hext] at hr
      have hlog := extend_heap_sbrkCalls s _ _ hext
      rw [round_up_extendsize] at hlog
      cases o with
      | none =>
        have := Option.some.inj hr
        subst this
        exact hlog
      | some m =>
        have := Option.some.inj hr
        subst this
        show (malloc_finish s₁ m (adjusted_size n)).2.sbrkCalls = _
        unfold malloc_finish
        rw [split_block_sbrkCalls, malloc_place_sbrkCalls]
        exact hlog

/-- Witness for C5: on a state with an empty heap and no fit, malloc(100)
records a 2048-byte arena request (adjusted size 112). -/
theorem C5_malloc_basics_witness :
    adjusted_size 5 = 16 ∧
    (108 ≤ adjusted_size 100 ∧ adjusted_size 100 < 124 ∧ adjusted_size 100 % 16 = 0) ∧
    (∃ r : Option Nat × AllocState, mallocFn emptyState 100 = some r ∧
      r.2.sbrkCalls = [2048]) := by
  refine ⟨C5_malloc_basics.2.1 5 (by decide) (by decide), ?_, ?_⟩
  · have h := C5_malloc_basics.2.2.1 100 (by decide) (by decide)
    exact ⟨h.2.1, h.2.2.1, h.2.2.2⟩
  · refine ⟨_, rfl, ?_⟩
    have h := C5_malloc_basics.2.2.2 emptyState 100 (by decide) (by decide) _ rfl
    rw [h]
    rfl

/-- C10: malloc's adjusted-size computation wraps modulo 2^64: for
n = 2^64 − 1 the adjusted size is 16, and on a heap with a free mini
block malloc returns a non-null payload backed by a 16-byte block —
far smaller than the request; there is no overflow guard. -/
theorem C10_request_size_overflow :
    adjusted_size (word_modulus - 1) = 16 ∧
    (∃ s', mallocFn miniState (word_modulus - 1) = some (some 16, s') ∧
      (s'.blk 0).size = 16 ∧ (s'.blk 0).size < word_modulus - 1 ∧ (s'.blk 0).alloc = true) := by
  refine ⟨rfl, _, rfl, rfl, by decide, rfl⟩

/-- C8: calloc returns null on zero elements and on multiplication
overflow; when the underlying malloc fails it returns null; and on
success every byte of the count-times-size payload is zero. -/
theorem C8_calloc_zeroing :
    (∀ (s : AllocState) (z : Nat), callocFn s 0 z = some (none, s)) ∧
    (∀ (s : AllocState) (e z : Nat), e ≠ 0 → word_modulus ≤ e * z →
      callocFn s e z = some (none, s)) ∧
    (∀ (s : AllocState) (e z : Nat) (s₁ : AllocState), e ≠ 0 →
      ((e * z) % word_modulus) / e = z →
      mallocFn s ((e * z) % word_modulus) = some (none, s₁) →
      callocFn s e z = some (none, s₁)) ∧
    (∀ (s : AllocState) (e z p : Nat) (s' : AllocState),
      callocFn s e z = some (some p, s') →
      ∀ i, i < e * z → s'.mem (p + i) = 0) := by
  have hmodlt : ∀ e z : Nat, e ≠ 0 → word_modulus ≤ e * z →
      ((e * z) % word_modulus) / e ≠ z := by
    intro e z he hw
    have h1 : (e * z) % word_modulus < word_modulus :=
      Nat.mod_lt _ (by unfold word_modulus; omega)
    have h2 : (e * z) % word_modulus < e * z := by omega
    have h3 : (e * z) % word_modulus / e < z := by
      rw [Nat.div_lt_iff_lt_mul (by omega : 0 < e), Nat.mul_comm z e]
      omega
    omega
  refine ⟨fun s z => rfl, ?_, ?_, ?_⟩
  · intro s e z he hw
    unfold callocFn
    rw [if_neg he, if_pos (hmodlt e z he hw)]
  · intro s e z s₁ he hdiv hm
    unfold callocFn
    rw [if_neg he, if_neg (by rw [hdiv]; exact fun h => h rfl)]
    rw [hm]
  · intro s e z p s' h i hi
    unfold callocFn at h
    by_cases he : e = 0
    · rw [if_pos he] at h
      have := Option.some.inj h
      exact Option.noConfusion (congrArg Prod.fst this)
    · rw [if_neg he] at h
      by_cases hguard : ((e * z) % word_modulus) / e ≠ z
      · rw [if_pos hguard] at h
        have := Option.some.inj h
        exact Option.noConfusion (congrArg Prod.fst this)
      · rw [if_neg hguard] at h
        have hdiv : ((e * z) % word_modulus) / e = z := by omega
        have hasize : (e * z) % word_modulus = e * z := by
          by_contra hne
          have h1 : (e * z) % word_modulus < word_modulus :=
            Nat.mod_lt _ (by unfold word_modulus; omega)
          have h2 : (e * z) % word_modulus ≤ e * z := Nat.mod_le _ _
          have h3 : (e * z) % word_modulus < e * z := by omega
          have h4 : (e * z) % word_modulus / e < z := by
            rw [Nat.div_lt_iff_lt_mul (by omega : 0 < e), Nat.mul_comm z e]
            omega
          omega
        rcases hm : mallocFn s ((e * z) % word_modulus) with _ | ⟨o, s₁⟩
        · rw [hm] at h
          exact Option.noConfusion h
        · rw [hm] at h
          cases o with
          | none =>
            have := Option.some.inj h
            exact Option.noConfusion (congrArg Prod.fst this)
          | some bp =>
            have hpair := Option.some.inj h
            injection hpair with hp1 hp2
            injection hp1 with hp
            subst hp
            rw [← hp2]
            show mem_memset s₁.mem bp 0 ((e * z) % word_modulus) (bp + i) = 0
            unfold mem_memset
            rw [if_pos ⟨by omega, by rw [hasize]; omega⟩]

/-- Witness for C8: calloc(1, 16) on the seeded heap returns payload 16
with its bytes zeroed. -/
theorem C8_calloc_zeroing_witness :
    ∃ s', callocFn initState 1 16 = some (some 16, s') ∧
      s'.mem 16 = 0 ∧ s'.mem 31 = 0 := by
  refine ⟨_, rfl, ?_, ?_⟩
  · exact C8_calloc_zeroing.2.2.2 initState 1 16 16 _ rfl 0 (by decide)
  · exact C8_calloc_zeroing.2.2.2 initState 1 16 16 _ rfl 15 (by decide)

/-- The state after a refused `mem_sbrk` request: identical except for
the ghost request trace. -/
def sbrkLogged (s : AllocState) (size : Nat) : AllocState :=
  { s with sbrkCalls := size :: s.sbrkCalls }

/-- C6: a refused arena extension writes no heap word and surfaces as a
null return from extend_heap, malloc, realloc and calloc, with the
allocator state unchanged (only the ghost request trace differs). -/
theorem C6_oom_no_partial_mutation :
    (∀ (s : AllocState) (size : Nat), s.avail < round_up size dsize →
      extend_heap s size = some (none, sbrkLogged s (round_up size dsize))) ∧
    (∀ (s : AllocState) (n : Nat), n ≠ 0 →
      find_fit (sizeAt s.heap) s.freeLists (adjusted_size n) = none →
      s.avail < round_up (maxsz (adjusted_size n) chunksize) dsize →
      mallocFn s n =
        some (none, sbrkLogged s (round_up (maxsz (adjusted_size n) chunksize) dsize))) ∧
    (∀ (s : AllocState) (p n : Nat), n ≠ 0 →
      find_fit (sizeAt s.heap) s.freeLists (adjusted_size n) = none →
      s.avail < round_up (maxsz (adjusted_size n) chunksize) dsize →
      reallocFn s (some p) n =
        some (none, sbrkLogged s (round_up (maxsz (adjusted_size n) chunksize) dsize))) ∧
    (∀ (s : AllocState) (e z : Nat), e ≠ 0 → ((e * z) % word_modulus) / e = z →
      (e * z) % word_modulus ≠ 0 →
      find_fit (sizeAt s.heap) s.freeLists (adjusted_size ((e * z) % word_modulus)) = none →
      s.avail < round_up (maxsz (adjusted_size ((e * z) % word_modulus)) chunksize) dsize →
      callocFn s e z = some (none, sbrkLogged s
        (round_up (maxsz (adjusted_size ((e * z) % word_modulus)) chunksize) dsize))) := by
  have hext : ∀ (s : AllocState) (size : Nat), s.avail < round_up size dsize →
      extend_heap s size = some (none, sbrkLogged s (round_up size dsize)) := by
    intro s size hav
    simp only [extend_heap, sbrkLogged]
    rw [if_pos (show ({ s with sbrkCalls := round_up size dsize :: s.sbrkCalls }
      : AllocState).avail < round_up size dsize from hav)]
  have hmal : ∀ (s : AllocState) (n : Nat), n ≠ 0 →
      find_fit (sizeAt s.heap) s.freeLists (adjusted_size n) = none →
      s.avail < round_up (maxsz (adjusted_size n) chunksize) dsize →
      mallocFn s n =
        some (none, sbrkLogged s (round_up (maxsz (adjusted_size n) chunksize) dsize)) := by
    intro s n hn hff hav
    unfold mallocFn
    rw [if_neg hn]
    simp only [hff]
    rw [hext s (maxsz (adjusted_size n) chunksize) hav]
  refine ⟨hext, hmal, ?_, ?_⟩
  · intro s p n hn hff hav
    unfold reallocFn
    rw [if_neg hn]
    rw [hmal s n hn hff hav]
  · intro s e z he hdiv hnz hff hav
    unfold callocFn
    rw [if_neg he, if_neg (by rw [hdiv]; exact fun h => h rfl)]
    rw [hmal s ((e * z) % word_modulus) hnz hff hav]

/-- Witness for C6: on the empty state with no arena slack, a refused
2048-byte extension and failing malloc(100), realloc(24, 100) and
calloc(25, 4) all return null with the allocator state unchanged. -/
theorem C6_oom_no_partial_mutation_witness :
    extend_heap emptyState 2048 = some (none, sbrkLogged emptyState 2048) ∧
    mallocFn emptyState 100 = some (none, sbrkLogged emptyState 2048) ∧
    reallocFn emptyState (some 24) 100 = some (none, sbrkLogged emptyState 2048) ∧
    callocFn emptyState 25 4 = some (none, sbrkLogged emptyState 2048) := by
  refine ⟨?_, ?_, ?_, ?_⟩
  · exact C6_oom_no_partial_mutation.1 emptyState 2048 (by decide)
  · exact C6_oom_no_partial_mutation.2.1 emptyState 100 (by decide) (by decide) (by decide)
  · exact C6_oom_no_partial_mutation.2.2.1 emptyState 24 100 (by decide) (by decide) (by decide)
  · exact C6_oom_no_partial_mutation.2.2.2 emptyState 25 4 (by decide) (by decide) (by decide)
      (by decide) (by decide)

/-- C9: the size-class index function realizes exactly the claimed
thresholds on positive multiples of 16. -/
theorem C9_size_class_thresholds (size : Nat) (hdvd : 16 ∣ size) (hpos : 0 < size) :
    (get_list_index size = 0 ↔ size = 16) ∧
    (get_list_index size = 1 ↔ 32 ≤ size ∧ size ≤ 64) ∧
    (get_list_index size = 2 ↔ 64 < size ∧ size ≤ 128) ∧
    (get_list_index size = 3 ↔ 128 < size ∧ size ≤ 256) ∧
    (get_list_index size = 4 ↔ 256 < size ∧ size ≤ 512) ∧
    (get_list_index size = 5 ↔ 512 < size ∧ size ≤ 1024) ∧
    (get_list_index size = 6 ↔ 1024 < size ∧ size ≤ 2048) ∧
    (get_list_index size = 7 ↔ 2048 < size ∧ size ≤ 4096) ∧
    (get_list_index size = 8 ↔ 4096 < size ∧ size ≤ 8192) ∧
    (get_list_index size = 9 ↔ 8192 < size ∧ size ≤ 16384) ∧
    (get_list_index size = 10 ↔ 16384 < size ∧ size ≤ 32768) ∧
    (get_list_index size = 11 ↔ 32768 < size ∧ size ≤ 65536) ∧
    (get_list_index size = 12 ↔ 65536 < size ∧ size ≤ 131072) ∧
    (get_list_index size = 13 ↔ 131072 < size ∧ size ≤ 262144) ∧
    (get_list_index size = 14 ↔ 262144 < size) := by
  obtain ⟨k, rfl⟩ := hdvd
  simp only [get_list_index, s_list_mini, s_list_1, s_list_2, s_list_3, s_list_4, s_list_5,
    s_list_6, s_list_7, s_list_8, s_list_9, s_list_10, s_list_11, s_list_12, s_list_13]
  split_ifs <;> simp_all <;> omega

/-- Witness for C9 at size 48 (bucket 1) and size 262160 (bucket 14). -/
theorem C9_size_class_thresholds_witness :
    get_list_index 48 = 1 ∧ get_list_index 262160 = 14 := by
  constructor
  · exact (C9_size_class_thresholds 48 (by decide) (by decide)).2.1.mpr (by decide)
  · exact (C9_size_class_thresholds 262160 (by decide) (by decide)).2.2.2.2.2.2.2.2.2.2.2.2.2.2.mpr
      (by decide)

/-- A heap state whose prologue word is corrupt (zero: size 0 but the
alloc bit clear), while every block and every (empty) free list is
well-formed. -/
def cex3State : AllocState :=
  ⟨0, [⟨32, true, true, false, 0⟩], ⟨0, true, true, false, 0⟩,
    [[], [], [], [], [], [], [], [], [], [], [], [], [], [], []],
    fun _ => 0, 0, []⟩

/-- C3 (code bug): mm_checkheap assigns every sub-check's result to the
same variable, so earlier failures are discarded and the function returns
the result of the last sub-check executed.  On a state whose prologue
check fails while every bucket check passes, mm_checkheap still returns
true — it is not the logical AND of its sub-checks. -/
theorem C3_checkheap_discards_failures :
    mm_checkheap cex3State = true ∧ check_prologue cex3State.proWord = false := by
  constructor
  · rfl
  · rfl

/-- The claimed and amended descriptions of find_fit's bounded best-fit
search disagree on a bucket with twelve entries: sizes under the search
size on the first eleven, a close-enough fit in position twelve.  The
source scans positions one through twelve (the counter check `cont > 10`
runs after the fit test), so it finds the twelfth entry; the claimed
ten-entry bound misses it. -/
def c4sz : Nat → Nat := fun a => if a = 999 then 48 else 16

/-- Bucket 1 with eleven non-fitting entries followed by a fitting one in
position twelve; all other buckets empty. -/
def c4lists : List (List Nat) :=
  [[], [1, 2, 3, 4, 5, 6, 7, 9, 10, 11, 12, 999], [], [], [], [], [], [], [], [], [], [], [],
    [], []]

/-- Counterexample for C4: on the twelve-entry bucket the source find_fit
returns the twelfth entry while the search described by the claim (at
most SEARCH_LIMIT = 10 entries examined per bucket) returns null. -/
theorem C4_find_fit_counterexample :
    find_fit c4sz c4lists 48 = some 999 ∧ findFitClaimed c4sz c4lists 48 = none ∧
    find_fit c4sz c4lists 48 ≠ findFitClaimed c4sz c4lists 48 := by
  refine ⟨by decide, by decide, by decide⟩

/-- The per-bucket scan loop threaded through the remaining buckets
agrees with the single-walk shared-counter description. -/
theorem scanBuckets_eq_ffAmended (sz : Nat → Nat) (asize : Nat) :
    ∀ (ls : List (List Nat)) (l : List Nat) (cnt : Nat) (best : Option Nat) (md : Nat),
      scanBuckets sz asize (l :: ls) cnt best md = ffAmended sz asize l ls cnt best md := by
  intro ls
  induction ls with
  | nil =>
    intro l
    induction l with
    | nil =>
      intro cnt best md
      simp only [scanBuckets, scanList, ffAmended]
    | cons a rest ih =>
      intro cnt best md
      simp only [scanBuckets, scanList, ffAmended]
      by_cases hfit : asize ≤ sz a
      · by_cases hlt : sz a - asize < md
        · by_cases h46 : sz a - asize ≤ CLOSE_ENOUGH
          · simp only [if_pos hfit, if_pos hlt, if_pos h46]
          · by_cases hcnt : cnt > SEARCH_LIMIT
            · simp only [if_pos hfit, if_pos hlt, if_neg h46, if_pos hcnt, scanBuckets]
            · simp only [if_pos hfit, if_pos hlt, if_neg h46, if_neg hcnt]
              exact ih (cnt + 1) (some a) (sz a - asize)
        · by_cases h46 : md ≤ CLOSE_ENOUGH
          · simp only [if_pos hfit, if_neg hlt, if_pos h46]
          · by_cases hcnt : cnt > SEARCH_LIMIT
            · simp only [if_pos hfit, if_neg hlt, if_neg h46, if_pos hcnt, scanBuckets]
            · simp only [if_pos hfit, if_neg hlt, if_neg h46, if_neg hcnt]
              exact ih (cnt + 1) best md
      · by_cases hcnt : cnt > SEARCH_LIMIT
        · simp only [if_neg hfit, if_pos hcnt, scanBuckets]
        · simp only [if_neg hfit, if_neg hcnt]
          exact ih (cnt + 1) best md
  | cons l' ls' ihOuter =>
    intro l
    induction l with
    | nil =>
      intro cnt best md
      simp only [scanBuckets, scanList, ffAmended]
      exact ihOuter l' cnt best md
    | cons a rest ih =>
      intro cnt best md
      simp only [scanBuckets, scanList, ffAmended]
      by_cases hfit : asize ≤ sz a
      · by_cases hlt : sz a - asize < md
        · by_cases h46 : sz a - asize ≤ CLOSE_ENOUGH
          · simp only [if_pos hfit, if_pos hlt, if_pos h46]
          · by_cases hcnt : cnt > SEARCH_LIMIT
            · simp only [if_pos hfit, if_pos hlt, if_neg h46, if_pos hcnt]
              exact ihOuter l' 0 (some a) (sz a - asize)
            · simp only [if_pos hfit, if_pos hlt, if_neg h46, if_neg hcnt]
              exact ih (cnt + 1) (some a) (sz a - asize)
        · by_cases h46 : md ≤ CLOSE_ENOUGH
          · simp only [if_pos hfit, if_neg hlt, if_pos h46]
          · by_cases hcnt : cnt > SEARCH_LIMIT
            · simp only [if_pos hfit, if_neg hlt, if_neg h46, if_pos hcnt]
              exact ihOuter l' 0 best md
            · simp only [if_pos hfit, if_neg hlt, if_neg h46, if_neg hcnt]
              exact ih (cnt + 1) best md
      · by_cases hcnt : cnt > SEARCH_LIMIT
        · simp only [if_neg hfit, if_pos hcnt]
          exact ihOuter l' 0 best md
        · simp only [if_neg hfit, if_neg hcnt]
          exact ih (cnt + 1) best md

/-- C4 amended: find_fit performs the segregated bounded best-fit scan in
which the entry counter is shared across buckets — kept when a chain ends,
reset exactly when it exceeds SEARCH_LIMIT = 10 (so up to 12 entries of a
bucket entered with counter 0 are examined, the check running after the
fit test) — tracking the block minimizing size − asize over the fits seen
and returning it as soon as the running minimum surplus is at most
CLOSE_ENOUGH = 46, and otherwise returning the best-so-far. -/
theorem C4_find_fit_amended (sz : Nat → Nat) (lists : List (List Nat)) (asize : Nat) :
    find_fit sz lists asize = findFitAmended sz lists asize := by
  simp only [find_fit, findFitAmended]
  cases hfast : (if get_list_index asize = 0 then (lists.getD 0 []).head? else none) with
  | some b => rfl
  | none =>
    cases hdrop : lists.drop (get_list_index asize) with
    | nil => rfl
    | cons l ls => exact scanBuckets_eq_ffAmended sz asize ls l 0 none (word_modulus - 1)

end MM
